import Mathlib

/-!
Shallow embedding of the rusty-redfishery Redfish server core, translated from
the Rust sources:
  * `redfish-data/src/lib.rs`  — schema types, `AllowedMethods`, OData documents,
    `get_uri_id`;
  * `example/src/tree.rs`      — `RedfishResource`, `RedfishCollection`, `MockTree`
    with its `get`/`create`/`delete`/`patch` operations;
  * `example/src/main.rs`      — the `create_session` post hook;
  * `redfish-axum/src/lib.rs`  — the HTTP pipeline: handlers, session store,
    standard headers and error responses.

Modelling conventions:
  * `serde_json::Value` becomes `JsonValue`; JSON objects are ordered key/value
    lists (`serde_json::Map` iteration order is the object's own order as far as
    the verified properties are concerned, and none of them depend on a
    particular key ordering of produced objects).
  * Rust `HashMap<String, _>` becomes an association list with first-match
    lookup, in-place overwrite on insert, and first-match removal.  No verified
    property depends on the iteration order of these maps.
  * HTTP header names are case-insensitive; the model normalizes them all to
    lowercase (`"odata-version"`, `"cache-control"`, ...).
  * Rust function-pointer hooks become Lean function fields.  Because Lean
    structures cannot mention themselves negatively, the hook argument types use
    the data-only parts (`ResourceData`, `CollectionData`) of the nodes, which is
    exactly the data the source hooks read and write.
  * A `&mut` patch hook (`fn(&mut RedfishResource, Value) -> Result<(), RedfishErr>`)
    is modelled as returning the final resource data together with an optional
    error: the in-place mutation persists whether or not an error is returned,
    exactly as in Rust.
  * `Uuid::new_v4()` is nondeterministic; the pipeline model takes the freshly
    generated token as an explicit parameter.
  * The basic-auth parser lives in the external `http_auth_basic` crate, so it
    is a parameter (`bp`) of the pipeline model; no verified property depends on
    its behavior.
-/

namespace RustyRedfishery

/-- `serde_json::Value`; objects are ordered association lists. -/
inductive JsonValue where
  | null : JsonValue
  | bool (b : Bool) : JsonValue
  | num (n : Int) : JsonValue
  | str (s : String) : JsonValue
  | arr (xs : List JsonValue) : JsonValue
  | obj (kvs : List (String × JsonValue)) : JsonValue

/-- `Value::as_object` (`Some` iff the value is a JSON object). -/
def JsonValue.asObj? : JsonValue → Option (List (String × JsonValue))
  | .obj kvs => some kvs
  | _ => none

/-- `Value::as_str` (`Some` iff the value is a JSON string). -/
def JsonValue.asStr? : JsonValue → Option String
  | .str s => some s
  | _ => none

/-- First-match lookup in an association list (`HashMap::get` / `Map::get`). -/
def mapGet? {α : Type} : List (String × α) → String → Option α
  | [], _ => none
  | (k, v) :: rest, key => if k = key then some v else mapGet? rest key

/-- Insert-or-overwrite in an association list (`HashMap::insert` / `Map::insert`). -/
def mapInsert {α : Type} : List (String × α) → String → α → List (String × α)
  | [], key, v => [(key, v)]
  | (k, v') :: rest, key, v =>
      if k = key then (key, v) :: rest else (k, v') :: mapInsert rest key v

/-- First-match removal from an association list (`HashMap::remove`). -/
def mapRemove {α : Type} : List (String × α) → String → List (String × α)
  | [], _ => []
  | (k, v) :: rest, key => if k = key then rest else (k, v) :: mapRemove rest key

/-- `AllowedMethods` from `redfish-data/src/lib.rs`. -/
structure AllowedMethods where
  delete : Bool
  get : Bool
  patch : Bool
  post : Bool
deriving DecidableEq, Repr

/-- The `fmt::Display` impl for `AllowedMethods`: push `GET`/`HEAD` together when
`get` is set, then `DELETE`, `PATCH`, `POST` for their bits, joined with `,`. -/
def AllowedMethods.toStr (a : AllowedMethods) : String :=
  let val : List String := []
  let val := if a.get then val ++ ["GET", "HEAD"] else val
  let val := if a.delete then val ++ ["DELETE"] else val
  let val := if a.patch then val ++ ["PATCH"] else val
  let val := if a.post then val ++ ["POST"] else val
  String.intercalate "," val

/-- `RedfishErr` from `redfish-axum/src/lib.rs`. -/
inductive Err where
  | notFound : Err
  | unauthorized : Err
  | methodNotAllowed (allowed : AllowedMethods) : Err
deriving DecidableEq, Repr

/-- `ResourceSchemaVersion` (`major.minor.build`). -/
structure ResourceSchemaVersion where
  major : Nat
  minor : Nat
  build : Nat
deriving DecidableEq, Repr

/-- `Display` for `ResourceSchemaVersion`: `v<major>_<minor>_<build>`. -/
def ResourceSchemaVersion.toStr (v : ResourceSchemaVersion) : String :=
  "v" ++ toString v.major ++ "_" ++ toString v.minor ++ "_" ++ toString v.build

/-- `Display` for `CollectionSchemaVersion`: `v<version>`. -/
def collectionVersionToStr (version : Nat) : String :=
  "v" ++ toString version

/-- `ResourceType` from `redfish-data/src/lib.rs` (called `RedfishResourceType`
at its `example/src/tree.rs` use sites). -/
structure ResourceType where
  name : String
  version : ResourceSchemaVersion
  xmlSchemaUri : String
  describedBy : String
deriving DecidableEq, Repr

/-- `ResourceType::new_dmtf`. -/
def ResourceType.new_dmtf (name : String) (version : ResourceSchemaVersion) : ResourceType where
  name := name
  version := version
  xmlSchemaUri :=
    "http://redfish.dmtf.org/schemas/v1/" ++ name ++ "_v" ++ toString version.major ++ ".xml"
  describedBy :=
    "https://redfish.dmtf.org/schemas/v1/" ++ name ++ "." ++ version.toStr ++ ".json"

/-- `CollectionType` from `redfish-data/src/lib.rs` (version is the wrapped
`u32` of `CollectionSchemaVersion`). -/
structure CollectionType where
  name : String
  version : Nat
  xmlSchemaUri : String
  describedBy : String
deriving DecidableEq, Repr

/-- `CollectionType::new_dmtf`. -/
def CollectionType.new_dmtf (name : String) (version : Nat) : CollectionType where
  name := name
  version := version
  xmlSchemaUri :=
    "http://redfish.dmtf.org/schemas/v1/" ++ name ++ "_" ++ collectionVersionToStr version ++ ".xml"
  describedBy := "https://redfish.dmtf.org/schemas/v1/" ++ name ++ ".json"

/-- `CollectionType::new_dmtf_v1`. -/
def CollectionType.new_dmtf_v1 (name : String) : CollectionType :=
  CollectionType.new_dmtf name 1

/-- Split a character list at `/` (the splitting used by the path model). -/
def splitSlash : List Char → List (List Char)
  | [] => [[]]
  | c :: rest =>
    match splitSlash rest with
    | [] => [[]]
    | comp :: comps => if c = '/' then [] :: comp :: comps else (c :: comp) :: comps

/-- Model of `std::path::Path::file_name` for the slash-separated paths this
program uses: the last component after discarding empty and `.` components,
`none` for a path ending in `..` or having no component. -/
def fileName? (s : String) : Option String :=
  let comps := ((splitSlash s.data).map String.mk).filter (fun c => c ≠ "" ∧ c ≠ ".")
  match comps.getLast? with
  | none => none
  | some c => if c = ".." then none else some c

/-- `get_uri_id` from `redfish-data/src/lib.rs`.  The source unwraps
`Path::file_name`; the model returns `""` where the source would panic (no
verified property exercises that case). -/
def get_uri_id (uri : String) : String :=
  if uri = "/redfish/v1" then "RootService"
  else (fileName? uri).getD ""

/-- `ODataServiceValue` (`kind`/`name`/`url`). -/
structure ODataServiceValue where
  kind : String
  name : String
  url : String
deriving DecidableEq, Repr

/-- `ODataServiceValue::new`: `kind` is `"Singleton"`, `name` is the file name
(basename) of the url.  The source unwraps `Path::file_name`; the model uses
`""` where the source would panic. -/
def ODataServiceValue.new (url : String) : ODataServiceValue where
  kind := "Singleton"
  name := (fileName? url).getD ""
  url := url

/-- Serialization of an `ODataServiceValue` (field order `kind`, `name`, `url`). -/
def ODataServiceValue.toJson (v : ODataServiceValue) : JsonValue :=
  .obj [("kind", .str v.kind), ("name", .str v.name), ("url", .str v.url)]

/-- The loop body of `get_odata_service_document`: top-level values that are
objects containing `"@odata.id"` contribute one entry built from that id.  The
source does `val["@odata.id"].as_str().unwrap()`; the model uses `""` where the
source would panic on a non-string id. -/
def serviceDocEntries : List (String × JsonValue) → List ODataServiceValue
  | [] => []
  | (_, v) :: rest =>
      match v.asObj? with
      | some kvs =>
          match mapGet? kvs "@odata.id" with
          | some idVal => ODataServiceValue.new ((idVal.asStr?).getD "") :: serviceDocEntries rest
          | none => serviceDocEntries rest
      | none => serviceDocEntries rest

/-- `get_odata_service_document` from `redfish-data/src/lib.rs`. -/
def get_odata_service_document (serviceRoot : List (String × JsonValue)) :
    List (String × JsonValue) :=
  let values := ODataServiceValue.new "/redfish/v1" :: serviceDocEntries serviceRoot
  [("@odata.id", .str "/redfish/v1/odata"),
   ("@odata.context", .str "/redfish/v1/$metadata"),
   ("value", .arr (values.map ODataServiceValue.toJson))]

/-- `get_versioned_name` for a resource type. -/
def ResourceType.versionedName (t : ResourceType) : String :=
  t.name ++ "." ++ t.version.toStr

/-- `ResourceType::to_xml`. -/
def ResourceType.toXml (t : ResourceType) : String :=
  "  <edmx:Reference Uri=\"" ++ t.xmlSchemaUri ++ "\">\n    <edmx:Include Namespace=\""
    ++ t.name ++ "\" />\n    <edmx:Include Namespace=\"" ++ t.versionedName
    ++ "\" />\n  </edmx:Reference>\n"

/-- `CollectionType::to_xml`. -/
def CollectionType.toXml (t : CollectionType) : String :=
  "  <edmx:Reference Uri=\"" ++ t.xmlSchemaUri ++ "\">\n    <edmx:Include Namespace=\""
    ++ t.name ++ "\" />\n  </edmx:Reference>\n"

/-- `get_odata_metadata_document` from `redfish-data/src/lib.rs`. -/
def get_odata_metadata_document (collectionTypes : List CollectionType)
    (resourceTypes : List ResourceType) : String :=
  let pre := "<?xml version=\"1.0\" encoding=\"UTF-8\"?>\n<edmx:Edmx xmlns:edmx=\"http://docs.oasis-open.org/odata/ns/edmx\" Version=\"4.0\">\n"
  let body := pre ++ String.join (collectionTypes.map CollectionType.toXml)
  let body := body ++ String.join (resourceTypes.map ResourceType.toXml)
  let serviceRootType := resourceTypes.reverse.find? (fun t => t.name = "ServiceRoot")
  let body := body
    ++ "  <edmx:Reference Uri=\"http://redfish.dmtf.org/schemas/v1/RedfishExtensions_v1.xml\">\n"
    ++ "    <edmx:Include Namespace=\"RedfishExtensions.v1_0_0\" Alias=\"Redfish\"/>\n"
    ++ "  </edmx:Reference>\n"
  let body :=
    match serviceRootType with
    | some t =>
        body ++ "  <edmx:DataServices>\n"
          ++ "    <Schema xmlns=\"http://docs.oasis-open.org/odata/ns/edm\" Namespace=\"Service\">\n"
          ++ "      <EntityContainer Name=\"Service\" Extends=\"" ++ t.versionedName
          ++ ".ServiceContainer\" />\n"
          ++ "    </Schema>\n  </edmx:DataServices>\n"
    | none => body
  body ++ "</edmx:Edmx>\n"

/-! ### `example/src/tree.rs`: resources, collections, and the `MockTree` store -/

/-- The data fields of `RedfishResource` (everything except the two hooks). -/
structure ResourceData where
  uri : String
  resourceType : ResourceType
  body : List (String × JsonValue)
  collection : Option String

/-- `RedfishResource`: data plus the optional per-resource `patch` and `delete`
hooks.  The `patch` hook takes `&mut self`, so its model returns the final
resource data together with the optional error (the in-place mutation persists
either way); the `delete` hook takes `&self` and returns `Result<(), RedfishErr>`. -/
structure Resource where
  data : ResourceData
  patchHook : Option (ResourceData → JsonValue → ResourceData × Option Err)
  deleteHook : Option (ResourceData → Except Err Unit)

/-- The data fields of `RedfishCollection` (everything except the post hook). -/
structure CollectionData where
  uri : String
  resourceType : CollectionType
  name : String
  members : List String

/-- `RedfishCollection`: data plus the optional `post` hook, which takes the
collection (by shared reference) and the request and returns the new resource
or an error. -/
structure Collection where
  data : CollectionData
  postHook : Option (CollectionData → JsonValue → Except Err Resource)

/-- `RedfishResource::new`.  The source unwraps `rest.as_object()`; the model
uses the empty object where the source would panic (every call site passes an
object literal). -/
def Resource.new (uri : String) (schemaName : String)
    (schemaVersion : ResourceSchemaVersion) (termName : String) (name : String)
    (deleteHook : Option (ResourceData → Except Err Unit))
    (patchHook : Option (ResourceData → JsonValue → ResourceData × Option Err))
    (collection : Option String) (rest : JsonValue) : Resource :=
  let body := (rest.asObj?).getD []
  let body := mapInsert body "@odata.id" (.str uri)
  let body := mapInsert body "@odata.etag" (.str "\"FIXME\"")
  let body := mapInsert body "@odata.type"
    (.str ("#" ++ schemaName ++ "." ++ schemaVersion.toStr ++ "." ++ termName))
  let body := mapInsert body "Id" (.str (get_uri_id uri))
  let body := mapInsert body "Name" (.str name)
  { data := { uri := uri
              resourceType := ResourceType.new_dmtf schemaName schemaVersion
              body := body
              collection := collection }
    patchHook := patchHook
    deleteHook := deleteHook }

/-- `RedfishCollection::new`. -/
def Collection.new (uri : String) (schemaName : String) (name : String)
    (members : List String)
    (postHook : Option (CollectionData → JsonValue → Except Err Resource)) : Collection :=
  { data := { uri := uri
              resourceType := CollectionType.new_dmtf_v1 schemaName
              name := name
              members := members }
    postHook := postHook }

/-- `RedfishResource::get_allowed_methods`. -/
def Resource.allowedMethods (r : Resource) : AllowedMethods where
  delete := r.deleteHook.isSome
  get := true
  patch := r.patchHook.isSome
  post := false

/-- `RedfishCollection::get_allowed_methods`. -/
def Collection.allowedMethods (c : Collection) : AllowedMethods where
  delete := false
  get := true
  patch := false
  post := c.postHook.isSome

/-- `RedfishCollection::get_body`: the synthesized collection body. -/
def Collection.getBody (c : Collection) : List (String × JsonValue) :=
  [("@odata.id", .str c.data.uri),
   ("@odata.etag", .str "\"FIXME\""),
   ("@odata.type", .str ("#" ++ c.data.resourceType.name ++ "." ++ c.data.resourceType.name)),
   ("Name", .str c.data.name),
   ("Members", .arr (c.data.members.map (fun m => .obj [("@odata.id", .str m)]))),
   ("Members@odata.count", .num c.data.members.length)]

/-- A `&dyn RedfishNode` view: either variant of tree node. -/
inductive Node where
  | res (r : Resource) : Node
  | col (c : Collection) : Node

/-- `RedfishNode::get_uri`. -/
def Node.uri : Node → String
  | .res r => r.data.uri
  | .col c => c.data.uri

/-- `RedfishNode::get_body` (as the underlying JSON object). -/
def Node.body : Node → List (String × JsonValue)
  | .res r => r.data.body
  | .col c => c.getBody

/-- `RedfishNode::get_allowed_methods`. -/
def Node.allowedMethods : Node → AllowedMethods
  | .res r => r.allowedMethods
  | .col c => c.allowedMethods

/-- `RedfishNode::described_by` (always `Some` for both variants). -/
def Node.describedBy : Node → Option String
  | .res r => some r.data.resourceType.describedBy
  | .col c => some c.data.resourceType.describedBy

/-- `MockTree`: the URI-keyed resource and collection maps and the two
schema-type registries. -/
structure MockTree where
  resources : List (String × Resource)
  collections : List (String × Collection)
  collectionTypes : List CollectionType
  resourceTypes : List ResourceType

/-- `MockTree::get`: anonymous access is allowed only for the exact URI
`/redfish/v1`; then resource lookup, then collection lookup, else `NotFound`. -/
def MockTree.get (t : MockTree) (uri : String) (username : Option String) :
    Except Err Node :=
  if uri ≠ "/redfish/v1" ∧ username = none then .error .unauthorized
  else
    match mapGet? t.resources uri with
    | some r => .ok (.res r)
    | none =>
      match mapGet? t.collections uri with
      | some c => .ok (.col c)
      | none => .error .notFound

/-- Removal of a member URI from a collection's member vector in
`MockTree::delete`: `position(|x| x == uri)` followed by `Vec::remove`, i.e.
remove the first occurrence and shift later members left. -/
def removeMember : List String → String → List String
  | [], _ => []
  | x :: xs, uri => if x = uri then xs else x :: removeMember xs uri

/-- `MockTree::create`.  Returns the handler result together with the final
tree state (`&mut self` persists across the call). -/
def MockTree.create (t : MockTree) (uri : String) (req : JsonValue)
    (username : Option String) : Except Err Node × MockTree :=
  if uri ≠ "/redfish/v1/SessionService/Sessions" ∧ username = none then
    (.error .unauthorized, t)
  else
    match mapGet? t.collections uri with
    | none =>
      match mapGet? t.resources uri with
      | some r => (.error (.methodNotAllowed r.allowedMethods), t)
      | none => (.error .notFound, t)
    | some c =>
      match c.postHook with
      | none => (.error (.methodNotAllowed c.allowedMethods), t)
      | some post =>
        match post c.data req with
        | .error e => (.error e, t)
        | .ok member =>
          let memberUri := member.data.uri
          let resources := mapInsert t.resources memberUri member
          let c' := { c with data := { c.data with members := c.data.members ++ [memberUri] } }
          let collections := mapInsert t.collections uri c'
          (.ok (.res member), { t with resources := resources, collections := collections })

/-- `MockTree::delete`. -/
def MockTree.delete (t : MockTree) (uri : String) (username : Option String) :
    Except Err Unit × MockTree :=
  if username = none then (.error .unauthorized, t)
  else
    match mapGet? t.resources uri with
    | none =>
      match mapGet? t.collections uri with
      | some c => (.error (.methodNotAllowed c.allowedMethods), t)
      | none => (.error .notFound, t)
    | some r =>
      match r.deleteHook with
      | none => (.error (.methodNotAllowed r.allowedMethods), t)
      | some del =>
        match del r.data with
        | .error e => (.error e, t)
        | .ok _ =>
          let t1 :=
            match r.data.collection with
            | some collectionUri =>
              match mapGet? t.collections collectionUri with
              | some c =>
                let c' := { c with data :=
                  { c.data with members := removeMember c.data.members uri } }
                { t with collections := mapInsert t.collections collectionUri c' }
              | none => t
            | none => t
          (.ok (), { t1 with resources := mapRemove t1.resources uri })

/-- `MockTree::patch`.  On hook error the in-place mutation of the resource
persists, exactly as with `&mut` in the source. -/
def MockTree.patch (t : MockTree) (uri : String) (req : JsonValue)
    (username : Option String) : Except Err Node × MockTree :=
  if username = none then (.error .unauthorized, t)
  else
    match mapGet? t.resources uri with
    | none =>
      match mapGet? t.collections uri with
      | some c => (.error (.methodNotAllowed c.allowedMethods), t)
      | none => (.error .notFound, t)
    | some r =>
      match r.patchHook with
      | none => (.error (.methodNotAllowed r.allowedMethods), t)
      | some ph =>
        let r' := { r with data := (ph r.data req).1 }
        let t' := { t with resources := mapInsert t.resources uri r' }
        match (ph r.data req).2 with
        | some e => (.error e, t')
        | none => (.ok (.res r'), t')

/-! ### `example/src/main.rs`: the session-creation post hook -/

/-- Decimal digit parsing for a character list (structural, so that concrete
computations reduce). -/
def parseNatChars : List Char → Option Nat
  | [] => none
  | [c] => if c.isDigit then some (c.toNat - '0'.toNat) else none
  | c :: rest =>
    if c.isDigit then
      match parseNatChars rest with
      | some n => some ((c.toNat - '0'.toNat) * 10 ^ rest.length + n)
      | none => none
    else none

/-- Model of Rust's `str::parse::<i32>` on the strings this program feeds it:
an optional sign followed by decimal digits (overflow is not modelled; the Ids
involved stay tiny). -/
def parseInt? (s : String) : Option Int :=
  match s.data with
  | '-' :: rest => (parseNatChars rest).map (fun n => -(n : Int))
  | '+' :: rest => (parseNatChars rest).map (fun n => (n : Int))
  | cs => (parseNatChars cs).map (fun n => (n : Int))

/-- The scan in `create_session`: the highest numeric Id among the collection's
member URIs (starting from 0).  The source does `id.parse().unwrap()`; the
model substitutes 0 where the source would panic on a non-numeric Id (verified
properties assume every member Id parses). -/
def sessionHighestId (members : List String) : Int :=
  members.foldl
    (fun highest m =>
      let id := (parseInt? (get_uri_id m)).getD 0
      if id > highest then id else highest)
    0

/-- The `UserName` value placed in the new session body:
`req.as_object().unwrap().get("UserName").unwrap().as_str()` serialized by
`json!` — a non-string value serializes as `null`.  The model returns `null`
where the source would panic on a missing key or non-object request. -/
def sessionUserName (req : JsonValue) : JsonValue :=
  match req.asObj? with
  | some kvs =>
    match mapGet? kvs "UserName" with
    | some (.str s) => .str s
    | _ => .null
  | none => .null

/-- `create_session` from `example/src/main.rs`. -/
def create_session (collection : CollectionData) (req : JsonValue) :
    Except Err Resource :=
  let highest := sessionHighestId collection.members
  let id := toString (highest + 1)
  let memberUri := collection.uri ++ "/" ++ id
  .ok (Resource.new memberUri "Session" ⟨1, 6, 0⟩ "Session" ("Session " ++ id)
    (some (fun _ => .ok ())) none (some collection.uri)
    (.obj [("UserName", sessionUserName req), ("Password", .null)]))

/-! ### `redfish-axum/src/lib.rs`: sessions, headers, responses, handlers -/

/-- `Session` (token, username, session resource URI). -/
structure Session where
  token : String
  username : String
  uri : String
deriving DecidableEq, Repr

/-- `AppState`: the tree behind its lock and the session vector behind its own
lock (the locks serialize each handler; handlers are modelled as functions from
state to response and next state). -/
structure AppState where
  tree : MockTree
  sessions : List Session

/-- `get_token_user`: first session with a matching token, if any. -/
def get_token_user (sessions : List Session) (token : String) : Option String :=
  match sessions.find? (fun s => s.token == token) with
  | some s => some s.username
  | none => none

/-- `get_request_username`.  `bp` is the external `http_auth_basic` parser
(header value to user id); it is a parameter of the model. -/
def get_request_username (bp : String → Option String)
    (headers : List (String × String)) (sessions : List Session) :
    Except Err (Option String) :=
  match mapGet? headers "x-auth-token" with
  | some token =>
    match get_token_user sessions token with
    | none => .error .unauthorized
    | some user => .ok (some user)
  | none =>
    match mapGet? headers "authorization" with
    | none => .ok none
    | some headerVal =>
      match bp headerVal with
      | none => .error .unauthorized
      | some userId => .ok (some userId)

/-- A response body: empty, JSON, or XML text. -/
inductive ResponseBody where
  | empty : ResponseBody
  | json (v : JsonValue) : ResponseBody
  | xml (s : String) : ResponseBody

/-- An HTTP response: status code, headers (lowercase names, insert-replaced as
in `HeaderMap`), body. -/
structure HttpResponse where
  status : Nat
  headers : List (String × String)
  body : ResponseBody

/-- `get_standard_headers`. -/
def get_standard_headers (allow : String) : List (String × String) :=
  [("allow", allow), ("odata-version", "4.0"), ("cache-control", "no-cache")]

/-- `bad_odata_version_response`: 412 with the two envelope headers and an
empty body. -/
def bad_odata_version_response : HttpResponse :=
  ⟨412, [("odata-version", "4.0"), ("cache-control", "no-cache")], .empty⟩

/-- `get_error_response`: the error-kind to status/header mapping. -/
def get_error_response : Err → HttpResponse
  | .notFound =>
    ⟨404, [("odata-version", "4.0"), ("cache-control", "no-cache")], .empty⟩
  | .unauthorized =>
    ⟨401, [("odata-version", "4.0"), ("cache-control", "no-cache"),
           ("www-authenticate", "Basic realm=\"simple\"")], .empty⟩
  | .methodNotAllowed allowed =>
    ⟨405, [("allow", allowed.toStr), ("odata-version", "4.0"),
           ("cache-control", "no-cache")], .empty⟩

/-- `get_described_by_header_value`. -/
def get_described_by_header_value? (n : Node) : Option String :=
  match n.describedBy with
  | some describedBy => some ("<" ++ describedBy ++ ">; rel=describedby")
  | none => none

/-- `get_node_etag_header_value`: the node body's `@odata.etag` when it is a
string (header-value validity checking is not modelled). -/
def get_node_etag_header_value? (n : Node) : Option String :=
  match mapGet? n.body "@odata.etag" with
  | some v => v.asStr?
  | none => none

/-- `add_node_headers`: insert `Link` (describedby), `ETag`, then `Link` again. -/
def add_node_headers (headers : List (String × String)) (n : Node) :
    List (String × String) :=
  let headers :=
    match get_described_by_header_value? n with
    | some v => mapInsert headers "link" v
    | none => headers
  let headers :=
    match get_node_etag_header_value? n with
    | some v => mapInsert headers "etag" v
    | none => headers
  match n.describedBy with
  | some describedBy =>
    mapInsert headers "link" ("<" ++ describedBy ++ ">; rel=describedby")
  | none => headers

/-- `JsonResponse::new(...).into_response()`: the given status and headers plus
`Content-Type: application/json` and the serialized JSON body. -/
def jsonResponse (status : Nat) (headers : List (String × String))
    (data : JsonValue) : HttpResponse :=
  ⟨status, mapInsert headers "content-type" "application/json", .json data⟩

/-- `get_node_get_response`. -/
def get_node_get_response (n : Node) : HttpResponse :=
  jsonResponse 200 (add_node_headers (get_standard_headers n.allowedMethods.toStr) n)
    (.obj n.body)

/-- `HeaderMap::extend`: insert every pair of `additional`. -/
def headerExtend (headers additional : List (String × String)) :
    List (String × String) :=
  additional.foldl (fun h kv => mapInsert h kv.1 kv.2) headers

/-- `get_node_created_response`. -/
def get_node_created_response (n : Node) (additional : List (String × String)) :
    HttpResponse :=
  let headers := get_standard_headers n.allowedMethods.toStr
  let headers := headerExtend headers additional
  let headers := add_node_headers headers n
  let headers := mapInsert headers "location" n.uri
  jsonResponse 201 headers (.obj n.body)

/-- `get_non_node_json_response`. -/
def get_non_node_json_response (status : Nat) (data : JsonValue) (allow : String) :
    HttpResponse :=
  jsonResponse status (get_standard_headers allow) data

/-- The `OData-Version` precondition shared by the handlers that take request
headers: acceptable iff the header is absent or exactly `"4.0"`. -/
def checkOData (headers : List (String × String)) : Bool :=
  match mapGet? headers "odata-version" with
  | some v => v == "4.0"
  | none => true

/-- `Vec::swap_remove(i)`: replace element `i` with the last element and pop. -/
def swapRemove {α : Type} (l : List α) (i : Nat) : List α :=
  match l.getLast? with
  | none => l
  | some last => (l.set i last).dropLast

/-- The session-removal loop in `deleter`: `swap_remove` the first session
whose `uri` matches, then `break`. -/
def removeSessionByUri (sessions : List Session) (uri : String) : List Session :=
  match sessions.findIdx? (fun s => s.uri == uri) with
  | none => sessions
  | some i => swapRemove sessions i

/-- `getter` (GET on the `/redfish/*path` wildcard). -/
def getter (bp : String → Option String) (st : AppState) (path : String)
    (headers : List (String × String)) : HttpResponse :=
  if checkOData headers = false then bad_odata_version_response
  else
    match get_request_username bp headers st.sessions with
    | .error e => get_error_response e
    | .ok user =>
      match st.tree.get ("/redfish/" ++ path) user with
      | .ok node => get_node_get_response node
      | .error e => get_error_response e

/-- `deleter` (DELETE on the wildcard).  On tree success the matching session
is removed and a 204 carrying only `Cache-Control: no-cache` is returned. -/
def deleter (bp : String → Option String) (st : AppState) (path : String)
    (headers : List (String × String)) : HttpResponse × AppState :=
  if checkOData headers = false then (bad_odata_version_response, st)
  else
    match get_request_username bp headers st.sessions with
    | .error e => (get_error_response e, st)
    | .ok user =>
      match st.tree.delete ("/redfish/" ++ path) user with
      | (.ok _, t') =>
        (⟨204, [("cache-control", "no-cache")], .empty⟩,
         ⟨t', removeSessionByUri st.sessions ("/redfish/" ++ path)⟩)
      | (.error e, t') => (get_error_response e, { st with tree := t' })

/-- The `UserName` string read from the created node's body in `poster`.  The
source unwraps; the model uses `""` where the source would panic. -/
def posterUserName (n : Node) : String :=
  match mapGet? n.body "UserName" with
  | some (.str s) => s
  | _ => ""

/-- `poster` (POST on the wildcard).  `token` is the freshly generated
`Uuid::new_v4()` value, a parameter of the model. -/
def poster (bp : String → Option String) (token : String) (st : AppState)
    (path : String) (headers : List (String × String)) (payload : JsonValue) :
    HttpResponse × AppState :=
  if checkOData headers = false then (bad_odata_version_response, st)
  else
    let uri := "/redfish/" ++ path
    let uri := if List.isSuffixOf "/Members".data uri.data
               then String.mk (uri.data.take (uri.data.length - 8)) else uri
    match get_request_username bp headers st.sessions with
    | .error e => (get_error_response e, st)
    | .ok user =>
      match st.tree.create uri payload user with
      | (.error e, t') => (get_error_response e, { st with tree := t' })
      | (.ok node, t') =>
        if uri = "/redfish/v1/SessionService/Sessions" then
          let session : Session := ⟨token, posterUserName node, node.uri⟩
          let sessions' := st.sessions ++ [session]
          (get_node_created_response node [("x-auth-token", token)], ⟨t', sessions'⟩)
        else
          (get_node_created_response node [], ⟨t', st.sessions⟩)

/-- `patcher` (PATCH on the wildcard). -/
def patcher (bp : String → Option String) (st : AppState) (path : String)
    (headers : List (String × String)) (payload : JsonValue) :
    HttpResponse × AppState :=
  if checkOData headers = false then (bad_odata_version_response, st)
  else
    match get_request_username bp headers st.sessions with
    | .error e => (get_error_response e, st)
    | .ok user =>
      match st.tree.patch ("/redfish/" ++ path) payload user with
      | (.ok node, t') => (get_node_get_response node, { st with tree := t' })
      | (.error e, t') => (get_error_response e, { st with tree := t' })

/-- `get_redfish` (GET `/redfish`). -/
def get_redfish (headers : List (String × String)) : HttpResponse :=
  if checkOData headers = false then bad_odata_version_response
  else
    get_non_node_json_response 200 (.obj [("v1", .str "/redfish/v1/")]) "GET,HEAD"

/-- `get_odata_metadata_doc` (GET `/redfish/v1/$metadata`). -/
def get_odata_metadata_doc (st : AppState) (headers : List (String × String)) :
    HttpResponse :=
  if checkOData headers = false then bad_odata_version_response
  else
    ⟨200,
     [("content-type", "application/xml"), ("allow", "GET,HEAD"),
      ("odata-version", "4.0"), ("cache-control", "no-cache")],
     .xml (get_odata_metadata_document st.tree.collectionTypes st.tree.resourceTypes)⟩

/-- `get_odata_service_doc` (GET `/redfish/v1/odata`).  The handler takes no
request headers at all in the source; it reads the service root with
`username = None` and unwraps (the 500 sentinel stands for the panic on a tree
without `/redfish/v1`, which no verified property exercises). -/
def get_odata_service_doc (st : AppState) : HttpResponse :=
  match st.tree.get "/redfish/v1" none with
  | .ok node =>
    get_non_node_json_response 200 (.obj (get_odata_service_document node.body)) "GET,HEAD"
  | .error _ => ⟨500, [], .empty⟩

/-- HTTP methods routed by the app (HEAD follows the GET path in axum with the
body discarded; it is not modelled separately). -/
inductive Method where
  | get : Method
  | post : Method
  | patch : Method
  | delete : Method
deriving DecidableEq, Repr

/-- `NormalizePathLayer::trim_trailing_slash`: drop trailing slashes, keeping
at least `/`. -/
def normalizePath (p : String) : String :=
  let t := String.mk ((p.data.reverse.dropWhile (fun c => c = '/')).reverse)
  if t = "" then "/" else t

/-- The wildcard capture of route `/redfish/*path`. -/
def wildcardRest? (p : String) : Option String :=
  if List.isPrefixOf "/redfish/".data p.data then some (String.mk (p.data.drop 9)) else none

/-- The axum `Router` of `app`: path normalization, then the three exact routes
(GET only), then the `/redfish/*path` wildcard with GET/POST/DELETE/PATCH.
Unrouted method/path pairs get axum's default 405/404 fallbacks, which no
verified property depends on. -/
def route (bp : String → Option String) (token : String) (st : AppState)
    (m : Method) (path : String) (headers : List (String × String))
    (payload : JsonValue) : HttpResponse × AppState :=
  let path := normalizePath path
  if path = "/redfish" then
    match m with
    | .get => (get_redfish headers, st)
    | _ => (⟨405, [("allow", "GET,HEAD")], .empty⟩, st)
  else if path = "/redfish/v1/$metadata" then
    match m with
    | .get => (get_odata_metadata_doc st headers, st)
    | _ => (⟨405, [("allow", "GET,HEAD")], .empty⟩, st)
  else if path = "/redfish/v1/odata" then
    match m with
    | .get => (get_odata_service_doc st, st)
    | _ => (⟨405, [("allow", "GET,HEAD")], .empty⟩, st)
  else
    match wildcardRest? path with
    | some rest =>
      match m with
      | .get => (getter bp st rest headers, st)
      | .post => poster bp token st rest headers payload
      | .delete => deleter bp st rest headers
      | .patch => patcher bp st rest headers payload
    | none => (⟨404, [], .empty⟩, st)

/-! ### Specification-side definitions (formalizing the claims' wording, to be
compared against the source-derived definitions above) -/

/-- Spec side: whether a verb is permitted by a node's capability bits
(`GET` and `HEAD` both follow the `get` bit). -/
def verbAllowed (a : AllowedMethods) : String → Bool
  | "GET" => a.get
  | "HEAD" => a.get
  | "DELETE" => a.delete
  | "PATCH" => a.patch
  | "POST" => a.post
  | _ => false

/-- Spec side: the permitted verbs in the fixed order `GET,HEAD,DELETE,PATCH,POST`. -/
def allowedVerbList (a : AllowedMethods) : List String :=
  ["GET", "HEAD", "DELETE", "PATCH", "POST"].filter (verbAllowed a)

/-- Spec side: service-document entries — one `{kind:"Singleton", name:<basename>,
url:<url>}` per top-level property value that is an object containing the key
`@odata.id` with a string value. -/
def serviceDocEntriesSpec (serviceRoot : List (String × JsonValue)) :
    List ODataServiceValue :=
  serviceRoot.filterMap (fun kv =>
    match kv.2 with
    | .obj kvs =>
      match mapGet? kvs "@odata.id" with
      | some (.str url) => some ⟨"Singleton", (fileName? url).getD "", url⟩
      | _ => none
    | _ => none)

/-- Every top-level object value's `@odata.id`, when present, is a string
(a decidable premise for the service-document theorem; the source panics on a
non-string id). -/
def topLevelIdString : JsonValue → Bool
  | .obj kvs =>
    match mapGet? kvs "@odata.id" with
    | some (.str _) => true
    | some _ => false
    | none => true
  | _ => true

/-- An association list whose keys are pairwise distinct — the invariant a
`HashMap` maintains by construction. -/
def keysNodup {α : Type} (l : List (String × α)) : Prop :=
  (l.map Prod.fst).Nodup

/-- Spec side (claim C6 / spec P2): for every collection, the member sequence
has no duplicates and contains exactly the URIs of the live resources whose
`collection` field names that collection. -/
def memberCoherent (t : MockTree) : Prop :=
  ∀ cu c, mapGet? t.collections cu = some c →
    c.data.members.Nodup ∧
    ∀ u, u ∈ c.data.members ↔
      ∃ r, mapGet? t.resources u = some r ∧ r.data.collection = some cu

/-! ### Concrete example states (used by witnesses and counterexamples) -/

/-- A basic-auth parser that accepts nothing (no verified property exercises
the external `http_auth_basic` crate). -/
def bpNone : String → Option String := fun _ => none

/-- A small service-root body (the shape used by `example/src/main.rs`). -/
def exServiceRootBody : JsonValue :=
  .obj [("AccountService", .obj [("@odata.id", .str "/redfish/v1/AccountService")]),
        ("Links", .obj [("Sessions", .obj [("@odata.id", .str "/redfish/v1/SessionService/Sessions")])]),
        ("SessionService", .obj [("@odata.id", .str "/redfish/v1/SessionService")])]

/-- The service root resource of the example tree. -/
def exRoot : Resource :=
  Resource.new "/redfish/v1" "ServiceRoot" ⟨1, 15, 0⟩ "ServiceRoot" "Root Service"
    none none none exServiceRootBody

/-- The session collection of the example tree, with the given members. -/
def exSessions (members : List String) : Collection :=
  Collection.new "/redfish/v1/SessionService/Sessions" "SessionCollection"
    "Session Collection" members (some create_session)

/-- A live session resource `/redfish/v1/SessionService/Sessions/1` (deletable,
as produced by `create_session`). -/
def exSessionRes : Resource :=
  Resource.new "/redfish/v1/SessionService/Sessions/1" "Session" ⟨1, 6, 0⟩ "Session"
    "Session 1" (some (fun _ => .ok ())) none (some "/redfish/v1/SessionService/Sessions")
    (.obj [("UserName", .str "admin"), ("Password", .null)])

/-- Example tree: service root, session collection with one member, and that
one session resource. -/
def exTree1 : MockTree :=
  { resources := [("/redfish/v1", exRoot),
                  ("/redfish/v1/SessionService/Sessions/1", exSessionRes)]
    collections := [("/redfish/v1/SessionService/Sessions",
                     exSessions ["/redfish/v1/SessionService/Sessions/1"])]
    collectionTypes := [CollectionType.new_dmtf_v1 "SessionCollection"]
    resourceTypes := [ResourceType.new_dmtf "ServiceRoot" ⟨1, 15, 0⟩,
                      ResourceType.new_dmtf "Session" ⟨1, 6, 0⟩] }

/-- Example app state: `exTree1` plus the session issued for resource 1. -/
def exState1 : AppState :=
  { tree := exTree1
    sessions := [⟨"tok1", "admin", "/redfish/v1/SessionService/Sessions/1"⟩] }

/-- Example tree: service root and an empty session collection (no sessions). -/
def exTree0 : MockTree :=
  { resources := [("/redfish/v1", exRoot)]
    collections := [("/redfish/v1/SessionService/Sessions", exSessions [])]
    collectionTypes := [CollectionType.new_dmtf_v1 "SessionCollection"]
    resourceTypes := [ResourceType.new_dmtf "ServiceRoot" ⟨1, 15, 0⟩] }

/-- A patch hook that records a mutation in the body and then fails — the
behavior Rust's `fn(&mut RedfishResource, Value) -> Result<(), RedfishErr>`
signature permits. -/
def mutFailPatchHook : ResourceData → JsonValue → ResourceData × Option Err :=
  fun d _ => ({ d with body := mapInsert d.body "Mutated" (.str "yes") }, some .notFound)

/-- A resource whose patch hook mutates before failing and whose delete hook
fails without mutating. -/
def c5Res : Resource :=
  { data := { uri := "/redfish/v1/Mut"
              resourceType := ResourceType.new_dmtf "Mut" ⟨1, 0, 0⟩
              body := [("@odata.id", .str "/redfish/v1/Mut")]
              collection := none }
    patchHook := some mutFailPatchHook
    deleteHook := some (fun _ => .error .unauthorized) }

/-- A tree holding only `c5Res`. -/
def c5Tree : MockTree :=
  { resources := [("/redfish/v1/Mut", c5Res)]
    collections := []
    collectionTypes := []
    resourceTypes := [ResourceType.new_dmtf "Mut" ⟨1, 0, 0⟩] }

/-- A tree that has an actual node stored at URI `/redfish`. -/
def slashRedfishTree : MockTree :=
  { resources := [("/redfish",
      Resource.new "/redfish" "Odd" ⟨1, 0, 0⟩ "Odd" "Odd" none none none (.obj []))]
    collections := []
    collectionTypes := []
    resourceTypes := [ResourceType.new_dmtf "Odd" ⟨1, 0, 0⟩] }

/-! ## Lemmas and theorems -/

theorem mapGet?_insert_self {α : Type} (l : List (String × α)) (k : String) (v : α) :
    mapGet? (mapInsert l k v) k = some v := by
  induction l with
  | nil => simp [mapInsert, mapGet?]
  | cons kv rest ih =>
    obtain ⟨k', v'⟩ := kv
    by_cases h : k' = k
    · simp [mapInsert, h, mapGet?]
    · simp [mapInsert, h, mapGet?, ih]

theorem mapGet?_insert_ne {α : Type} (l : List (String × α)) (k' k : String) (v : α)
    (h : k' ≠ k) : mapGet? (mapInsert l k' v) k = mapGet? l k := by
  induction l with
  | nil => simp [mapInsert, mapGet?, h]
  | cons kv rest ih =>
    obtain ⟨k₀, v₀⟩ := kv
    by_cases h0 : k₀ = k'
    · subst h0; simp [mapInsert, mapGet?, h]
    · by_cases h1 : k₀ = k
      · subst h1; simp [mapInsert, h0, mapGet?]
      · simp [mapInsert, h0, mapGet?, h1, ih]

theorem mapGet?_remove_ne {α : Type} (l : List (String × α)) (k' k : String)
    (h : k' ≠ k) : mapGet? (mapRemove l k') k = mapGet? l k := by
  induction l with
  | nil => simp [mapRemove]
  | cons kv rest ih =>
    obtain ⟨k₀, v₀⟩ := kv
    by_cases h0 : k₀ = k'
    · subst h0
      have h1 : k₀ ≠ k := h
      simp [mapRemove, mapGet?, h1]
    · by_cases h1 : k₀ = k
      · subst h1; simp [mapRemove, h0, mapGet?]
      · simp [mapRemove, h0, mapGet?, h1, ih]

theorem mapGet?_eq_none_of_not_mem_keys {α : Type} (l : List (String × α)) (k : String)
    (h : k ∉ l.map Prod.fst) : mapGet? l k = none := by
  induction l with
  | nil => rfl
  | cons kv rest ih =>
    obtain ⟨k₀, v₀⟩ := kv
    have h0 : k₀ ≠ k := by
      intro hcon; exact h (by simp [hcon])
    simp only [mapGet?, if_neg h0]
    exact ih (fun hcon => h (by simpa using Or.inr hcon))

theorem mapGet?_remove_self {α : Type} (l : List (String × α)) (k : String)
    (h : keysNodup l) : mapGet? (mapRemove l k) k = none := by
  induction l with
  | nil => simp [mapRemove, mapGet?]
  | cons kv rest ih =>
    obtain ⟨k₀, v₀⟩ := kv
    have hnd : keysNodup rest := by
      simpa [keysNodup] using (List.nodup_cons.mp h).2
    by_cases h0 : k₀ = k
    · subst h0
      have hk : k₀ ∉ rest.map Prod.fst := by
        simpa using (List.nodup_cons.mp h).1
      simp only [mapRemove, if_pos rfl]
      exact mapGet?_eq_none_of_not_mem_keys rest k₀ hk
    · simp [mapRemove, h0, mapGet?, ih hnd]

/-- C10 helper: anonymous `MockTree::get` on a non-root URI is `Unauthorized`. -/
theorem mockTree_get_anon_ne_root (t : MockTree) (uri : String)
    (h : uri ≠ "/redfish/v1") : MockTree.get t uri none = .error .unauthorized := by
  unfold MockTree.get
  rw [if_pos ⟨h, rfl⟩]

/-- C10: for the tree store's get with `username = none` and any URI other than
`/redfish/v1`, the result is `Unauthorized` independently of the tree's
contents: any two trees give the same answer, so an unauthenticated caller
cannot distinguish present from absent resources. -/
theorem anonymous_get_uniform_unauthorized (t₁ t₂ : MockTree) (uri : String)
    (h : uri ≠ "/redfish/v1") :
    MockTree.get t₁ uri none = .error .unauthorized ∧
    MockTree.get t₁ uri none = MockTree.get t₂ uri none := by
  refine ⟨mockTree_get_anon_ne_root t₁ uri h, ?_⟩
  rw [mockTree_get_anon_ne_root t₁ uri h, mockTree_get_anon_ne_root t₂ uri h]

/-- Witness for C10: with `/redfish/v1/SessionService` — present in `exTree1`'s
backing store for one tree and absent from the other — both trees answer the
same `Unauthorized`. -/
theorem anonymous_get_uniform_unauthorized_witness :
    ("/redfish/v1/SessionService/Sessions/1" ≠ "/redfish/v1") = True ∧
    MockTree.get exTree1 "/redfish/v1/SessionService/Sessions/1" none = .error .unauthorized ∧
    MockTree.get exTree1 "/redfish/v1/SessionService/Sessions/1" none =
      MockTree.get exTree0 "/redfish/v1/SessionService/Sessions/1" none := by
  have h := anonymous_get_uniform_unauthorized exTree1 exTree0
    "/redfish/v1/SessionService/Sessions/1" (by decide)
  exact ⟨by simp, h.1, h.2⟩

/-- C1 counterexample: the tree at hand stores a node at the exact URI
`/redfish`, yet `get("/redfish", none)` is `Unauthorized` — anonymous tree
access is *not* permitted for `/redfish` (nor, by the same first check, for
`/redfish/v1/$metadata` or `/redfish/v1/odata`). -/
theorem anonymous_get_slash_redfish_unauthorized :
    MockTree.get slashRedfishTree "/redfish" none = .error .unauthorized ∧
    (mapGet? slashRedfishTree.resources "/redfish").isSome = true ∧
    MockTree.get slashRedfishTree "/redfish/v1/$metadata" none = .error .unauthorized ∧
    MockTree.get slashRedfishTree "/redfish/v1/odata" none = .error .unauthorized := by
  refine ⟨?_, rfl, ?_, ?_⟩ <;> exact mockTree_get_anon_ne_root _ _ (by decide)

/-- C1 (amended): for `MockTree`, an anonymous `get` is refused exactly when
the URI differs from `/redfish/v1`, and an anonymous `create` on any URI other
than the session collection is refused and leaves the tree unchanged. -/
theorem anonymous_access_policy (t : MockTree) (uri : String) (req : JsonValue) :
    (MockTree.get t uri none = .error .unauthorized ↔ uri ≠ "/redfish/v1") ∧
    (uri ≠ "/redfish/v1/SessionService/Sessions" →
      (MockTree.create t uri req none).1 = .error .unauthorized ∧
      (MockTree.create t uri req none).2 = t) := by
  constructor
  · constructor
    · intro h hroot
      subst hroot
      unfold MockTree.get at h
      rw [if_neg (by simp)] at h
      rcases h1 : mapGet? t.resources "/redfish/v1" with _ | r
      · rcases h2 : mapGet? t.collections "/redfish/v1" with _ | c
        · rw [h1, h2] at h; exact Err.noConfusion (Except.error.inj h)
        · rw [h1, h2] at h; exact Except.noConfusion h
      · rw [h1] at h; exact Except.noConfusion h
    · exact mockTree_get_anon_ne_root t uri
  · intro h
    unfold MockTree.create
    rw [if_pos ⟨h, rfl⟩]
    exact ⟨rfl, rfl⟩

/-- Witness for C1's amended theorem at a concrete URI and tree. -/
theorem anonymous_access_policy_witness :
    (MockTree.get exTree1 "/redfish/v1/AccountService" none = .error .unauthorized ↔
      "/redfish/v1/AccountService" ≠ "/redfish/v1") ∧
    (MockTree.create exTree1 "/redfish/v1/AccountService" .null none).1 = .error .unauthorized ∧
    (MockTree.create exTree1 "/redfish/v1/AccountService" .null none).2 = exTree1 := by
  have h := anonymous_access_policy exTree1 "/redfish/v1/AccountService" .null
  exact ⟨h.1, h.2 (by decide)⟩

/-- C3 (code bug): a successful DELETE — here `/redfish/v1/SessionService/Sessions/1`
through the router with a valid token — returns 204 carrying
`Cache-Control: no-cache` but *no* `OData-Version` header. -/
theorem delete_204_lacks_odata_version :
    (route bpNone "t" exState1 .delete "/redfish/v1/SessionService/Sessions/1"
        [("x-auth-token", "tok1")] .null).1.status = 204 ∧
    mapGet? (route bpNone "t" exState1 .delete "/redfish/v1/SessionService/Sessions/1"
        [("x-auth-token", "tok1")] .null).1.headers "cache-control" = some "no-cache" ∧
    mapGet? (route bpNone "t" exState1 .delete "/redfish/v1/SessionService/Sessions/1"
        [("x-auth-token", "tok1")] .null).1.headers "odata-version" = none := by
  refine ⟨?_, ?_, ?_⟩ <;> decide

/-- C4 (code bug): a GET of `/redfish/v1/odata` carrying `OData-Version: 4.1`
is answered 200 — the handler never reads the header — while the sibling
endpoints `/redfish` and `/redfish/v1/$metadata` answer 412 as the spec says. -/
theorem odata_service_doc_ignores_odata_version :
    (route bpNone "t" exState1 .get "/redfish/v1/odata"
        [("odata-version", "4.1")] .null).1.status = 200 ∧
    (route bpNone "t" exState1 .get "/redfish/v1/$metadata"
        [("odata-version", "4.1")] .null).1.status = 412 ∧
    (route bpNone "t" exState1 .get "/redfish"
        [("odata-version", "4.1")] .null).1.status = 412 ∧
    (route bpNone "t" exState1 .get "/redfish/v1"
        [("odata-version", "4.1")] .null).1.status = 412 := by
  refine ⟨?_, ?_, ?_, ?_⟩ <;> decide

theorem allowedMethods_toStr_spec (a : AllowedMethods) :
    a.toStr = String.intercalate "," (allowedVerbList a) := by
  obtain ⟨d, g, p, q⟩ := a
  cases d <;> cases g <;> cases p <;> cases q <;> decide

/-- `add_node_headers` only touches the `link` and `etag` headers. -/
theorem add_node_headers_preserves (hs : List (String × String)) (n : Node)
    (k : String) (h1 : k ≠ "link") (h2 : k ≠ "etag") :
    mapGet? (add_node_headers hs n) k = mapGet? hs k := by
  unfold add_node_headers
  rcases get_described_by_header_value? n with _ | v1 <;>
    rcases get_node_etag_header_value? n with _ | v2 <;>
    rcases n.describedBy with _ | v3 <;>
    simp [mapGet?_insert_ne _ _ _ _ (Ne.symm h1), mapGet?_insert_ne _ _ _ _ (Ne.symm h2)]

/-- C8: every `Allow` value derived from capability bits lists the permitted
verbs in the fixed order `GET,HEAD,DELETE,PATCH,POST` (with `GET`/`HEAD`
appearing together exactly when the `get` bit is set, and each of `DELETE`,
`PATCH`, `POST` exactly when its bit is set), and this is the `Allow` header of
the 200 response, of the 201 response (with or without the session token
header), and of the 405 `MethodNotAllowed` response alike. -/
theorem allow_header_fixed_verb_order (a : AllowedMethods) (n : Node) (tok : String) :
    a.toStr = String.intercalate "," (allowedVerbList a) ∧
    mapGet? (get_node_get_response n).headers "allow" =
      some (String.intercalate "," (allowedVerbList n.allowedMethods)) ∧
    mapGet? (get_node_created_response n [("x-auth-token", tok)]).headers "allow" =
      some (String.intercalate "," (allowedVerbList n.allowedMethods)) ∧
    mapGet? (get_node_created_response n []).headers "allow" =
      some (String.intercalate "," (allowedVerbList n.allowedMethods)) ∧
    mapGet? (get_error_response (.methodNotAllowed a)).headers "allow" =
      some (String.intercalate "," (allowedVerbList a)) := by
  refine ⟨allowedMethods_toStr_spec a, ?_, ?_, ?_, ?_⟩
  · unfold get_node_get_response jsonResponse
    rw [mapGet?_insert_ne _ _ _ _ (by decide),
        add_node_headers_preserves _ _ _ (by decide) (by decide),
        ← allowedMethods_toStr_spec]
    rfl
  · unfold get_node_created_response jsonResponse
    rw [mapGet?_insert_ne _ _ _ _ (by decide),
        mapGet?_insert_ne _ _ _ _ (by decide),
        add_node_headers_preserves _ _ _ (by decide) (by decide)]
    show mapGet? (headerExtend _ _) "allow" = _
    simp only [headerExtend, List.foldl_cons, List.foldl_nil]
    rw [mapGet?_insert_ne _ _ _ _ (by decide), ← allowedMethods_toStr_spec]
    rfl
  · unfold get_node_created_response jsonResponse
    rw [mapGet?_insert_ne _ _ _ _ (by decide),
        mapGet?_insert_ne _ _ _ _ (by decide),
        add_node_headers_preserves _ _ _ (by decide) (by decide)]
    show mapGet? (headerExtend _ _) "allow" = _
    unfold headerExtend
    rw [List.foldl_nil, ← allowedMethods_toStr_spec]
    rfl
  · rw [← allowedMethods_toStr_spec]
    rfl

theorem sessionHighestId_foldl_max (ms : List String) (ids : List Int) (acc : Int)
    (hids : ms.map (fun m => parseInt? (get_uri_id m)) = ids.map some) :
    ms.foldl
      (fun highest m =>
        let id := (parseInt? (get_uri_id m)).getD 0
        if id > highest then id else highest) acc = ids.foldl max acc := by
  induction ms generalizing ids acc with
  | nil =>
    have : ids = [] := by
      cases ids with
      | nil => rfl
      | cons i t => simp at hids
    subst this; rfl
  | cons m ms' ih =>
    cases ids with
    | nil => simp at hids
    | cons i ids' =>
      simp only [List.map_cons, List.cons.injEq] at hids
      obtain ⟨h1, h2⟩ := hids
      simp only [List.foldl_cons, h1, Option.getD_some]
      rw [ih ids' _ h2]
      congr 1
      by_cases hgt : i > acc
      · rw [if_pos hgt, max_eq_right (le_of_lt hgt)]
      · rw [if_neg hgt, max_eq_left (not_lt.mp hgt)]

theorem sessionHighestId_eq_max (ms : List String) (ids : List Int)
    (hids : ms.map (fun m => parseInt? (get_uri_id m)) = ids.map some) :
    sessionHighestId ms = ids.foldl max 0 :=
  sessionHighestId_foldl_max ms ids 0 hids

/-- C7: `create_session` parses the numeric Id of every existing member URI,
assigns Id `max+1` (so an empty collection yields Id 1), places the new
resource at `<collection URI>/<Id>` and names it `Session <Id>`. -/
theorem create_session_assigns_max_plus_one (c : CollectionData) (req : JsonValue)
    (ids : List Int)
    (hids : c.members.map (fun m => parseInt? (get_uri_id m)) = ids.map some) :
    ∃ r, create_session c req = .ok r ∧
      r.data.uri = c.uri ++ "/" ++ toString (ids.foldl max 0 + 1) ∧
      mapGet? r.data.body "Name" =
        some (.str ("Session " ++ toString (ids.foldl max 0 + 1))) ∧
      (c.members = [] → ids.foldl max 0 + 1 = 1) := by
  refine ⟨_, rfl, ?_, ?_, ?_⟩
  · show (Resource.new _ _ _ _ _ _ _ _ _).data.uri = _
    simp [Resource.new, sessionHighestId_eq_max c.members ids hids]
  · show mapGet? (Resource.new _ _ _ _ _ _ _ _ _).data.body "Name" = _
    simp only [Resource.new]
    rw [mapGet?_insert_self, sessionHighestId_eq_max c.members ids hids]
  · intro hnil
    rw [hnil] at hids
    have : ids = [] := by
      cases ids with
      | nil => rfl
      | cons i t => simp at hids
    subst this; rfl

/-- Witness for C7: with members `1` and `3` the next session is `4`; the
empty-collection clause yields `1`. -/
theorem create_session_assigns_max_plus_one_witness :
    (∃ r, create_session (exSessions ["/redfish/v1/SessionService/Sessions/1",
          "/redfish/v1/SessionService/Sessions/3"]).data (.obj [("UserName", .str "Obiwan")]) = .ok r ∧
      r.data.uri = (exSessions ["/redfish/v1/SessionService/Sessions/1",
          "/redfish/v1/SessionService/Sessions/3"]).data.uri ++ "/" ++
          toString (([1, 3] : List Int).foldl max 0 + 1) ∧
      mapGet? r.data.body "Name" =
        some (.str ("Session " ++ toString (([1, 3] : List Int).foldl max 0 + 1))) ∧
      ((exSessions ["/redfish/v1/SessionService/Sessions/1",
          "/redfish/v1/SessionService/Sessions/3"]).data.members = [] →
        ([1, 3] : List Int).foldl max 0 + 1 = 1)) ∧
    (∃ r, create_session (exSessions []).data (.obj [("UserName", .str "Obiwan")]) = .ok r ∧
      r.data.uri = (exSessions []).data.uri ++ "/" ++ toString (([] : List Int).foldl max 0 + 1) ∧
      mapGet? r.data.body "Name" =
        some (.str ("Session " ++ toString (([] : List Int).foldl max 0 + 1))) ∧
      ((exSessions []).data.members = [] → ([] : List Int).foldl max 0 + 1 = 1)) := by
  constructor
  · exact create_session_assigns_max_plus_one _ _ [1, 3] (by decide)
  · exact create_session_assigns_max_plus_one _ _ [] (by decide)

theorem serviceDocEntries_eq_spec (sr : List (String × JsonValue))
    (h : ∀ kv ∈ sr, topLevelIdString kv.2 = true) :
    serviceDocEntries sr = serviceDocEntriesSpec sr := by
  induction sr with
  | nil => rfl
  | cons kv rest ih =>
    obtain ⟨k, v⟩ := kv
    have hv : topLevelIdString v = true := h (k, v) (List.mem_cons_self _ _)
    have hrest := ih (fun kv' hm => h kv' (List.mem_cons_of_mem _ hm))
    cases v with
    | obj kvs =>
      cases hid : mapGet? kvs "@odata.id" with
      | none =>
        simp [serviceDocEntries, serviceDocEntriesSpec, JsonValue.asObj?, hid, hrest]
      | some idv =>
        cases idv with
        | str s =>
          simp [serviceDocEntries, serviceDocEntriesSpec, JsonValue.asObj?, hid,
            JsonValue.asStr?, hrest, ODataServiceValue.new]
        | null => simp [topLevelIdString, hid] at hv
        | bool b => simp [topLevelIdString, hid] at hv
        | num n => simp [topLevelIdString, hid] at hv
        | arr xs => simp [topLevelIdString, hid] at hv
        | obj kvs' => simp [topLevelIdString, hid] at hv
    | null => simp [serviceDocEntries, serviceDocEntriesSpec, JsonValue.asObj?, hrest]
    | bool b => simp [serviceDocEntries, serviceDocEntriesSpec, JsonValue.asObj?, hrest]
    | num n => simp [serviceDocEntries, serviceDocEntriesSpec, JsonValue.asObj?, hrest]
    | str s => simp [serviceDocEntries, serviceDocEntriesSpec, JsonValue.asObj?, hrest]
    | arr xs => simp [serviceDocEntries, serviceDocEntriesSpec, JsonValue.asObj?, hrest]

/-- C9: the OData service document is the envelope with
`@odata.id = /redfish/v1/odata` and `@odata.context = /redfish/v1/$metadata`
whose `value` array starts with the synthetic
`{kind:"Singleton", name:"v1", url:"/redfish/v1"}` entry and continues, in the
service root's own property order, with one
`{kind:"Singleton", name:<basename>, url:<url>}` entry per top-level property
value that is an object containing `@odata.id`; nested objects and non-object
values contribute nothing.  (The premise — each such `@odata.id` is a string —
is where the source would panic otherwise.) -/
theorem odata_service_document_shape (sr : List (String × JsonValue))
    (h : ∀ kv ∈ sr, topLevelIdString kv.2 = true) :
    get_odata_service_document sr =
      [("@odata.id", .str "/redfish/v1/odata"),
       ("@odata.context", .str "/redfish/v1/$metadata"),
       ("value", .arr ((⟨"Singleton", "v1", "/redfish/v1"⟩ :: serviceDocEntriesSpec sr).map
          ODataServiceValue.toJson))] := by
  unfold get_odata_service_document
  rw [serviceDocEntries_eq_spec sr h]
  rfl

/-- Witness for C9 at the service-root body of the example tree. -/
theorem odata_service_document_shape_witness :
    get_odata_service_document ((exServiceRootBody.asObj?).getD []) =
      [("@odata.id", .str "/redfish/v1/odata"),
       ("@odata.context", .str "/redfish/v1/$metadata"),
       ("value", .arr ((⟨"Singleton", "v1", "/redfish/v1"⟩ ::
          serviceDocEntriesSpec ((exServiceRootBody.asObj?).getD [])).map
          ODataServiceValue.toJson))] :=
  odata_service_document_shape _ (by decide)

/-- C5 counterexample: a patch hook that mutates the resource in place and then
returns an error (which the Rust
`fn(&mut RedfishResource, Value) -> Result<(), RedfishErr>` signature permits)
leaves the mutation behind: the operation returns the error, yet the resource
map has changed, so the tree state is *not* exactly as before the operation. -/
theorem patch_hook_error_can_mutate_tree :
    (MockTree.patch c5Tree "/redfish/v1/Mut" .null (some "admin")).1 = .error .notFound ∧
    (match mapGet? (MockTree.patch c5Tree "/redfish/v1/Mut" .null (some "admin")).2.resources
        "/redfish/v1/Mut" with
     | some r => mapGet? r.data.body "Mutated"
     | none => none) = some (.str "yes") ∧
    (match mapGet? c5Tree.resources "/redfish/v1/Mut" with
     | some r => mapGet? r.data.body "Mutated"
     | none => none) = none ∧
    (MockTree.patch c5Tree "/redfish/v1/Mut" .null (some "admin")).2 ≠ c5Tree := by
  refine ⟨rfl, rfl, rfl, ?_⟩
  intro hcontra
  have hyes : (match mapGet?
      (MockTree.patch c5Tree "/redfish/v1/Mut" .null (some "admin")).2.resources
      "/redfish/v1/Mut" with
     | some r => mapGet? r.data.body "Mutated"
     | none => none) = some (.str "yes") := rfl
  rw [hcontra] at hyes
  have h3 : (none : Option JsonValue) = some (.str "yes") := hyes
  exact Option.noConfusion h3

/-- C5 (amended): an error returned by the post hook during `create` or by the
delete hook during `delete` leaves the tree exactly as it was (as does any
other error of those operations); an error from the patch hook leaves the
collection map, every member list and both schema-type registries untouched and
changes the resource map at most at the patched URI, where any in-place
mutation the hook performed before failing persists. -/
theorem hook_error_leaves_tree (t : MockTree) (uri : String) (req : JsonValue)
    (user : Option String) :
    (∀ e, (MockTree.create t uri req user).1 = .error e →
      (MockTree.create t uri req user).2 = t) ∧
    (∀ e, (MockTree.delete t uri user).1 = .error e →
      (MockTree.delete t uri user).2 = t) ∧
    (∀ e, (MockTree.patch t uri req user).1 = .error e →
      (MockTree.patch t uri req user).2.collections = t.collections ∧
      (MockTree.patch t uri req user).2.collectionTypes = t.collectionTypes ∧
      (MockTree.patch t uri req user).2.resourceTypes = t.resourceTypes ∧
      ∀ u', u' ≠ uri →
        mapGet? (MockTree.patch t uri req user).2.resources u' =
          mapGet? t.resources u') := by
  refine ⟨?_, ?_, ?_⟩
  · intro e
    unfold MockTree.create
    split
    · intro _; rfl
    · split
      · split <;> (intro _; rfl)
      · split
        · intro _; rfl
        · split
          · intro _; rfl
          · intro h; simp at h
  · intro e
    unfold MockTree.delete
    split
    · intro _; rfl
    · split
      · split <;> (intro _; rfl)
      · split
        · intro _; rfl
        · split
          · intro _; rfl
          · intro h; simp at h
  · intro e
    unfold MockTree.patch
    split
    · intro _; exact ⟨rfl, rfl, rfl, fun _ _ => rfl⟩
    · split
      · split <;> (intro _; exact ⟨rfl, rfl, rfl, fun _ _ => rfl⟩)
      · split
        · intro _; exact ⟨rfl, rfl, rfl, fun _ _ => rfl⟩
        · split
          · intro _
            refine ⟨rfl, rfl, rfl, fun u' hne => ?_⟩
            exact mapGet?_insert_ne _ _ _ _ (Ne.symm hne)
          · intro h; simp at h

/-- Witness for C5's amended theorem: at `c5Tree` with an authenticated user,
`create` hits 405, `delete`'s hook fails, `patch`'s hook mutates and fails; the
guarantees hold at those error results. -/
theorem hook_error_leaves_tree_witness :
    (MockTree.create c5Tree "/redfish/v1/Mut" .null (some "admin")).2 = c5Tree ∧
    (MockTree.delete c5Tree "/redfish/v1/Mut" (some "admin")).2 = c5Tree ∧
    (MockTree.patch c5Tree "/redfish/v1/Mut" .null (some "admin")).2.collections =
      c5Tree.collections ∧
    (MockTree.patch c5Tree "/redfish/v1/Mut" .null (some "admin")).2.resourceTypes =
      c5Tree.resourceTypes ∧
    mapGet? (MockTree.patch c5Tree "/redfish/v1/Mut" .null (some "admin")).2.resources
      "/redfish/v1" = mapGet? c5Tree.resources "/redfish/v1" := by
  have H := hook_error_leaves_tree c5Tree "/redfish/v1/Mut" .null (some "admin")
  have h3 := H.2.2 .notFound rfl
  exact ⟨H.1 (.methodNotAllowed ⟨true, true, true, false⟩) rfl,
         H.2.1 .unauthorized rfl,
         h3.1, h3.2.2.1,
         h3.2.2.2 "/redfish/v1" (by decide)⟩

theorem getLast?_cons_ne_nil {α : Type} (a : α) {m : List α} (h : m ≠ []) :
    (a :: m).getLast? = m.getLast? := by
  cases m with
  | nil => exact absurd rfl h
  | cons b t => exact List.getLast?_cons_cons

theorem set_perm_cons_eraseIdx {α : Type} :
    ∀ (l : List α) (i : Nat) (v : α), i < l.length → (l.set i v).Perm (v :: l.eraseIdx i)
  | [], i, v, h => by simp at h
  | a :: t, 0, v, _ => by
    rw [List.set_cons_zero, List.eraseIdx_cons_zero]
  | a :: t, i + 1, v, h => by
    rw [List.set_cons_succ, List.eraseIdx_cons_succ]
    have ih := set_perm_cons_eraseIdx t i v (Nat.lt_of_succ_lt_succ (by simpa using h))
    exact (ih.cons a).trans (List.Perm.swap v a _)

theorem getLast?_set {α : Type} :
    ∀ (l : List α) (i : Nat) (last : α), l.getLast? = some last →
      (l.set i last).getLast? = some last
  | [], _, _, h => by simp at h
  | a :: m, 0, last, h => by
    rw [List.set_cons_zero]
    cases m with
    | nil =>
      have : a = last := by simpa using h
      subst this; rfl
    | cons b t =>
      have h' : (b :: t).getLast? = some last := by rwa [List.getLast?_cons_cons] at h
      rw [getLast?_cons_ne_nil last (by simp)]
      exact h'
  | a :: m, i + 1, last, h => by
    rw [List.set_cons_succ]
    cases m with
    | nil => simpa using h
    | cons b t =>
      have h' : (b :: t).getLast? = some last := by rwa [List.getLast?_cons_cons] at h
      have hne : (b :: t).set i last ≠ [] := by
        intro h0
        have := congrArg List.length h0
        simp at this
      rw [getLast?_cons_ne_nil a hne]
      exact getLast?_set (b :: t) i last h'

theorem swapRemove_perm_eraseIdx {α : Type} (l : List α) (i : Nat) (h : i < l.length) :
    (swapRemove l i).Perm (l.eraseIdx i) := by
  unfold swapRemove
  cases hl : l.getLast? with
  | none =>
    have hnil : l = [] := List.getLast?_eq_none_iff.mp hl
    subst hnil; simp at h
  | some last =>
    have hset : (l.set i last).getLast? = some last := getLast?_set l i last hl
    have happ : (l.set i last).dropLast ++ [last] = l.set i last :=
      List.dropLast_append_getLast? last (by simp [Option.mem_def, hset])
    have h1 : ((l.set i last).dropLast ++ [last]).Perm (last :: l.eraseIdx i) := by
      rw [happ]; exact set_perm_cons_eraseIdx l i last h
    have h2 : ((l.set i last).dropLast ++ [last]).Perm (last :: (l.set i last).dropLast) :=
      List.perm_append_singleton _ _
    exact (h2.symm.trans h1).cons_inv

theorem not_mem_eraseIdx_of_count_one {α : Type} [DecidableEq α] :
    ∀ (l : List α) (i : Nat) (x : α), l.count x = 1 → l[i]? = some x → x ∉ l.eraseIdx i
  | [], i, x, _, hi => by simp at hi
  | a :: t, 0, x, hc, hi => by
    have hax : a = x := by simpa using hi
    subst hax
    rw [List.eraseIdx_cons_zero]
    have h0 : t.count a = 0 := by
      simp [List.count_cons] at hc
      omega
    exact List.count_eq_zero.mp h0
  | a :: t, i + 1, x, hc, hi => by
    have hti : t[i]? = some x := by simpa using hi
    rw [List.eraseIdx_cons_succ]
    intro hmem
    by_cases hax : x = a
    · subst hax
      have h0 : t.count x = 0 := by
        simp [List.count_cons] at hc
        omega
      exact absurd (List.getElem?_mem hti) (List.count_eq_zero.mp h0)
    · have h1 : t.count x = 1 := by
        simp [List.count_cons, hax] at hc
        omega
      rcases List.mem_cons.mp hmem with h2 | h2
      · exact hax h2
      · exact not_mem_eraseIdx_of_count_one t i x h1 hti h2

theorem mem_of_mem_swapRemove {α : Type} {l : List α} {i : Nat} {x : α}
    (hx : x ∈ swapRemove l i) : x ∈ l := by
  unfold swapRemove at hx
  cases hl : l.getLast? with
  | none => rw [hl] at hx; exact hx
  | some last =>
    rw [hl] at hx
    have h1 : x ∈ l.set i last := (List.dropLast_sublist _).subset hx
    rcases List.mem_or_eq_of_mem_set h1 with h2 | h2
    · exact h2
    · subst h2
      have happ : l.dropLast ++ [x] = l :=
        List.dropLast_append_getLast? x (by simp [Option.mem_def, hl])
      rw [← happ]
      exact List.mem_append_right _ (List.mem_singleton_self _)

theorem removeSessionByUri_subset (sessions : List Session) (u : String) :
    ∀ x ∈ removeSessionByUri sessions u, x ∈ sessions := by
  intro x hx
  unfold removeSessionByUri at hx
  cases hfi : sessions.findIdx? (fun s => s.uri == u) with
  | none => rw [hfi] at hx; exact hx
  | some i => rw [hfi] at hx; exact mem_of_mem_swapRemove hx

theorem not_mem_removeSessionByUri (sessions : List Session) (s : Session)
    (hmem : s ∈ sessions) (hcount : sessions.count s = 1)
    (huri : ∀ x ∈ sessions, x.uri = s.uri → x = s) :
    s ∉ removeSessionByUri sessions s.uri := by
  unfold removeSessionByUri
  cases hfi : sessions.findIdx? (fun x => x.uri == s.uri) with
  | none =>
    rw [List.findIdx?_eq_none_iff] at hfi
    have := hfi s hmem
    simp at this
  | some i =>
    obtain ⟨hlen, hp, -⟩ := List.findIdx?_eq_some_iff_getElem.mp hfi
    have hgi : sessions[i] = s := huri _ (List.getElem_mem hlen) (by simpa using hp)
    have hgi? : sessions[i]? = some s := by
      rw [List.getElem?_eq_some_iff]; exact ⟨hlen, hgi⟩
    intro hmem'
    exact not_mem_eraseIdx_of_count_one sessions i s hcount hgi?
      ((swapRemove_perm_eraseIdx sessions i hlen).mem_iff.mp hmem')

theorem get_token_user_removed (sessions : List Session) (s : Session)
    (hmem : s ∈ sessions) (hcount : sessions.count s = 1)
    (huri : ∀ x ∈ sessions, x.uri = s.uri → x = s)
    (htok : ∀ x ∈ sessions, x.token = s.token → x = s) :
    get_token_user (removeSessionByUri sessions s.uri) s.token = none := by
  unfold get_token_user
  cases hfind : (removeSessionByUri sessions s.uri).find? (fun x => x.token == s.token) with
  | none => rfl
  | some x =>
    have hx := List.find?_some hfind
    have hxmem := List.mem_of_find?_eq_some hfind
    have hxs : x ∈ sessions := removeSessionByUri_subset _ _ x hxmem
    have hxeq : x = s := htok x hxs (by simpa using hx)
    rw [hxeq] at hxmem
    exact absurd hxmem (not_mem_removeSessionByUri sessions s hmem hcount huri)

/-- A 204 from `deleter` can only come from the success branch, whose session
store is the swap-remove of the first session matching the deleted URI. -/
theorem deleter_204_sessions (bp : String → Option String) (st : AppState)
    (path : String) (hdrs : List (String × String))
    (h : (deleter bp st path hdrs).1.status = 204) :
    (deleter bp st path hdrs).2.sessions =
      removeSessionByUri st.sessions ("/redfish/" ++ path) := by
  revert h
  unfold deleter
  split
  · intro h; simp [bad_odata_version_response] at h
  · split
    · rename_i e heq
      intro h; cases e <;> simp [get_error_response] at h
    · split
      · intro _; rfl
      · rename_i e t2 heq2
        intro h; cases e <;> simp [get_error_response] at h

theorem get_request_username_token_unauthorized (bp : String → Option String)
    (hdrs : List (String × String)) (sessions : List Session) (token : String)
    (htok : mapGet? hdrs "x-auth-token" = some token)
    (hnone : get_token_user sessions token = none) :
    get_request_username bp hdrs sessions = .error .unauthorized := by
  simp [get_request_username, htok, hnone]

theorem handlers_unauthorized (bp : String → Option String) (st : AppState)
    (hdrs : List (String × String))
    (hov : checkOData hdrs = true)
    (hu : get_request_username bp hdrs st.sessions = .error .unauthorized) :
    ∀ path payload tok,
      getter bp st path hdrs = get_error_response .unauthorized ∧
      (deleter bp st path hdrs).1 = get_error_response .unauthorized ∧
      (patcher bp st path hdrs payload).1 = get_error_response .unauthorized ∧
      (poster bp tok st path hdrs payload).1 = get_error_response .unauthorized := by
  intro path payload tok
  refine ⟨?_, ?_, ?_, ?_⟩ <;> simp [getter, deleter, patcher, poster, hov, hu]

/-- C2: after a successful DELETE (a 204 from `deleter`), the stored session
whose `uri` equals the deleted URI is removed from the session store, and every
subsequent request presenting the `X-Auth-Token` issued for that session —
whatever its method or path — is answered with the 401 Unauthorized response.
(The uniqueness premises — the session is stored once, and no other stored
session shares its URI or its token — hold for the store the pipeline builds,
which keys sessions by fresh UUID tokens and fresh member URIs.) -/
theorem delete_session_revokes_token
    (bp : String → Option String) (st : AppState) (path : String)
    (hdrs hdrs2 : List (String × String)) (s : Session)
    (hstatus : (deleter bp st path hdrs).1.status = 204)
    (hmem : s ∈ st.sessions) (huri : s.uri = "/redfish/" ++ path)
    (hcount : st.sessions.count s = 1)
    (huniq : ∀ x ∈ st.sessions, x.uri = s.uri → x = s)
    (htok : ∀ x ∈ st.sessions, x.token = s.token → x = s)
    (htok2 : mapGet? hdrs2 "x-auth-token" = some s.token)
    (hov2 : checkOData hdrs2 = true) :
    s ∉ (deleter bp st path hdrs).2.sessions ∧
    (get_error_response .unauthorized).status = 401 ∧
    ∀ path2 payload2 tok2,
      getter bp (deleter bp st path hdrs).2 path2 hdrs2 =
        get_error_response .unauthorized ∧
      (deleter bp (deleter bp st path hdrs).2 path2 hdrs2).1 =
        get_error_response .unauthorized ∧
      (patcher bp (deleter bp st path hdrs).2 path2 hdrs2 payload2).1 =
        get_error_response .unauthorized ∧
      (poster bp tok2 (deleter bp st path hdrs).2 path2 hdrs2 payload2).1 =
        get_error_response .unauthorized := by
  have hsess : (deleter bp st path hdrs).2.sessions =
      removeSessionByUri st.sessions s.uri := by
    rw [huri]; exact deleter_204_sessions bp st path hdrs hstatus
  refine ⟨?_, rfl, ?_⟩
  · rw [hsess]
    exact not_mem_removeSessionByUri st.sessions s hmem hcount huniq
  · intro path2 payload2 tok2
    have hnone : get_token_user (deleter bp st path hdrs).2.sessions s.token = none := by
      rw [hsess]
      exact get_token_user_removed st.sessions s hmem hcount huniq htok
    have hu : get_request_username bp hdrs2 (deleter bp st path hdrs).2.sessions =
        .error .unauthorized :=
      get_request_username_token_unauthorized bp hdrs2 _ s.token htok2 hnone
    exact handlers_unauthorized bp (deleter bp st path hdrs).2 hdrs2 hov2 hu
      path2 payload2 tok2

/-- Witness for C2: delete the example session via its own token; the session
disappears and the token is refused on a subsequent GET/DELETE/PATCH/POST. -/
theorem delete_session_revokes_token_witness :
    (⟨"tok1", "admin", "/redfish/v1/SessionService/Sessions/1"⟩ : Session) ∉
      (deleter bpNone exState1 "v1/SessionService/Sessions/1"
        [("x-auth-token", "tok1")]).2.sessions ∧
    getter bpNone (deleter bpNone exState1 "v1/SessionService/Sessions/1"
        [("x-auth-token", "tok1")]).2 "v1/SessionService/Sessions"
        [("x-auth-token", "tok1")] = get_error_response .unauthorized ∧
    (poster bpNone "tok9" (deleter bpNone exState1 "v1/SessionService/Sessions/1"
        [("x-auth-token", "tok1")]).2 "v1/SessionService/Sessions"
        [("x-auth-token", "tok1")] .null).1 = get_error_response .unauthorized := by
  have H := delete_session_revokes_token bpNone exState1 "v1/SessionService/Sessions/1"
    [("x-auth-token", "tok1")] [("x-auth-token", "tok1")]
    ⟨"tok1", "admin", "/redfish/v1/SessionService/Sessions/1"⟩
    (by decide) (by decide) (by decide) (by decide) (by decide) (by decide)
    (by decide) (by decide)
  have H2 := H.2.2 "v1/SessionService/Sessions" .null "tok9"
  exact ⟨H.1, H2.1, H2.2.2.2⟩

theorem mem_of_mem_removeMember {l : List String} {u x : String}
    (hx : x ∈ removeMember l u) : x ∈ l := by
  induction l with
  | nil => exact hx
  | cons a t ih =>
    unfold removeMember at hx
    by_cases ha : a = u
    · rw [if_pos ha] at hx
      exact List.mem_cons_of_mem _ hx
    · rw [if_neg ha] at hx
      rcases List.mem_cons.mp hx with h | h
      · exact h ▸ List.mem_cons_self _ _
      · exact List.mem_cons_of_mem _ (ih h)

theorem mem_removeMember_of_ne {l : List String} {u x : String}
    (hne : x ≠ u) (hx : x ∈ l) : x ∈ removeMember l u := by
  induction l with
  | nil => exact hx
  | cons a t ih =>
    unfold removeMember
    by_cases ha : a = u
    · rw [if_pos ha]
      rcases List.mem_cons.mp hx with h | h
      · exact absurd (h.trans ha) hne
      · exact h
    · rw [if_neg ha]
      rcases List.mem_cons.mp hx with h | h
      · exact h ▸ List.mem_cons_self _ _
      · exact List.mem_cons_of_mem _ (ih h)

theorem not_mem_removeMember_self {l : List String} (h : l.Nodup) (u : String) :
    u ∉ removeMember l u := by
  induction l with
  | nil => simp [removeMember]
  | cons a t ih =>
    unfold removeMember
    obtain ⟨hha, hht⟩ := List.nodup_cons.mp h
    by_cases ha : a = u
    · rw [if_pos ha]
      subst ha
      exact hha
    · rw [if_neg ha]
      intro hmem
      rcases List.mem_cons.mp hmem with hcon | hcon
      · exact ha hcon.symm
      · exact ih hht hcon

theorem removeMember_nodup {l : List String} (h : l.Nodup) (u : String) :
    (removeMember l u).Nodup := by
  induction l with
  | nil => simp [removeMember]
  | cons a t ih =>
    unfold removeMember
    obtain ⟨hha, hht⟩ := List.nodup_cons.mp h
    by_cases ha : a = u
    · rw [if_pos ha]; exact hht
    · rw [if_neg ha]
      exact List.nodup_cons.mpr ⟨fun hcon => hha (mem_of_mem_removeMember hcon), ih hht⟩

theorem removeMember_append {l1 l2 : List String} {u : String} (h : u ∉ l1) :
    removeMember (l1 ++ u :: l2) u = l1 ++ l2 := by
  induction l1 with
  | nil => simp [removeMember]
  | cons a t ih =>
    have ha : a ≠ u := fun hcon => h (hcon ▸ List.mem_cons_self _ _)
    show removeMember (a :: (t ++ u :: l2)) u = a :: (t ++ l2)
    unfold removeMember
    rw [if_neg ha, ih (fun hcon => h (List.mem_cons_of_mem _ hcon))]

/-- Coherence core for delete when the deleted resource names no live
collection: removing the resource from the map preserves member coherence. -/
theorem memberCoherent_resources_removed (t : MockTree) (uri : String) (r : Resource)
    (hco : memberCoherent t) (hnd : keysNodup t.resources)
    (hr : mapGet? t.resources uri = some r)
    (hno : ∀ cu c, mapGet? t.collections cu = some c → r.data.collection ≠ some cu) :
    memberCoherent { t with resources := mapRemove t.resources uri } := by
  intro cu c hc
  obtain ⟨hnodup, hiff⟩ := hco cu c hc
  refine ⟨hnodup, fun u => ?_⟩
  by_cases hu : u = uri
  · subst hu
    constructor
    · intro humem
      obtain ⟨r', hr', hcoll⟩ := (hiff u).mp humem
      rw [hr] at hr'
      injection hr' with hr'
      subst hr'
      exact absurd hcoll (hno cu c hc)
    · rintro ⟨r', hr', -⟩
      rw [mapGet?_remove_self t.resources u hnd] at hr'
      exact Option.noConfusion hr'
  · show u ∈ c.data.members ↔
      ∃ r', mapGet? (mapRemove t.resources uri) u = some r' ∧ r'.data.collection = some cu
    rw [mapGet?_remove_ne _ _ _ (fun hh => hu hh.symm)]
    exact hiff u

/-- Coherence core for delete when the deleted resource's collection is live:
removing both the map entry and the member entry preserves coherence. -/
theorem memberCoherent_delete_with_collection (t : MockTree) (uri cu0 : String)
    (r : Resource) (c0 : Collection)
    (hco : memberCoherent t) (hnd : keysNodup t.resources)
    (hr : mapGet? t.resources uri = some r)
    (hcoll : r.data.collection = some cu0)
    (hc0 : mapGet? t.collections cu0 = some c0) :
    memberCoherent { t with
      resources := mapRemove t.resources uri
      collections := mapInsert t.collections cu0
        { c0 with data := { c0.data with members := removeMember c0.data.members uri } } } := by
  intro cu c hc
  by_cases hcu : cu = cu0
  · subst hcu
    rw [mapGet?_insert_self] at hc
    injection hc with hc
    subst hc
    obtain ⟨hnodup, hiff⟩ := hco cu c0 hc0
    refine ⟨removeMember_nodup hnodup uri, fun u => ?_⟩
    show u ∈ removeMember c0.data.members uri ↔ _
    by_cases hu : u = uri
    · subst hu
      constructor
      · intro humem
        exact absurd humem (not_mem_removeMember_self hnodup u)
      · rintro ⟨r', hr', -⟩
        rw [mapGet?_remove_self t.resources u hnd] at hr'
        exact Option.noConfusion hr'
    · rw [mapGet?_remove_ne _ _ _ (fun hh => hu hh.symm)]
      constructor
      · intro humem
        exact (hiff u).mp (mem_of_mem_removeMember humem)
      · intro hex
        exact mem_removeMember_of_ne hu ((hiff u).mpr hex)
  · rw [mapGet?_insert_ne _ _ _ _ (fun hh => hcu hh.symm)] at hc
    obtain ⟨hnodup, hiff⟩ := hco cu c hc
    refine ⟨hnodup, fun u => ?_⟩
    by_cases hu : u = uri
    · subst hu
      constructor
      · intro humem
        obtain ⟨r', hr', hrc⟩ := (hiff u).mp humem
        rw [hr] at hr'
        injection hr' with hr'
        subst hr'
        rw [hcoll] at hrc
        injection hrc with hrc
        exact (hcu hrc.symm).elim
      · rintro ⟨r', hr', -⟩
        rw [mapGet?_remove_self t.resources u hnd] at hr'
        exact Option.noConfusion hr'
    · show u ∈ c.data.members ↔
        ∃ r', mapGet? (mapRemove t.resources uri) u = some r' ∧ r'.data.collection = some cu
      rw [mapGet?_remove_ne _ _ _ (fun hh => hu hh.symm)]
      exact hiff u

/-- Coherence core for create: inserting a fresh resource that names its
collection and appending its URI to that collection's members preserves
coherence. -/
theorem memberCoherent_create_state (t : MockTree) (uri : String) (c : Collection)
    (member : Resource)
    (hco : memberCoherent t)
    (hc : mapGet? t.collections uri = some c)
    (hmcoll : member.data.collection = some uri)
    (hfresh : mapGet? t.resources member.data.uri = none) :
    memberCoherent { t with
      resources := mapInsert t.resources member.data.uri member
      collections := mapInsert t.collections uri
        { c with data := { c.data with members := c.data.members ++ [member.data.uri] } } } := by
  intro cu c' hc'
  by_cases hcu : cu = uri
  · subst hcu
    rw [mapGet?_insert_self] at hc'
    injection hc' with hc'
    subst hc'
    obtain ⟨hnodup, hiff⟩ := hco cu c hc
    have hmem_not : member.data.uri ∉ c.data.members := by
      intro hmm
      obtain ⟨r', hr', -⟩ := (hiff _).mp hmm
      rw [hfresh] at hr'
      exact Option.noConfusion hr'
    refine ⟨?_, fun u => ?_⟩
    · show (c.data.members ++ [member.data.uri]).Nodup
      rw [List.nodup_append]
      exact ⟨hnodup, List.nodup_singleton _,
        fun a ha hb => hmem_not ((List.mem_singleton.mp hb) ▸ ha)⟩
    · show u ∈ c.data.members ++ [member.data.uri] ↔ _
      by_cases hu : u = member.data.uri
      · constructor
        · intro _
          rw [hu]
          exact ⟨member, mapGet?_insert_self t.resources member.data.uri member, hmcoll⟩
        · intro _
          rw [hu]
          exact List.mem_append_right _ (List.mem_singleton_self _)
      · rw [mapGet?_insert_ne _ _ _ _ (fun hh => hu hh.symm)]
        simp only [List.mem_append, List.mem_singleton, hu, or_false]
        exact hiff u
  · rw [mapGet?_insert_ne _ _ _ _ (fun hh => hcu hh.symm)] at hc'
    obtain ⟨hnodup, hiff⟩ := hco cu c' hc'
    refine ⟨hnodup, fun u => ?_⟩
    by_cases hu : u = member.data.uri
    · constructor
      · intro humem
        obtain ⟨r', hr', -⟩ := (hiff u).mp humem
        rw [hu, hfresh] at hr'
        exact Option.noConfusion hr'
      · rintro ⟨r', hr', hrc⟩
        rw [hu, mapGet?_insert_self] at hr'
        injection hr' with hr'
        subst hr'
        rw [hmcoll] at hrc
        injection hrc with hrc
        exact (hcu hrc.symm).elim
    · rw [mapGet?_insert_ne _ _ _ _ (fun hh => hu hh.symm)]
      exact hiff u

/-- C6: collection member sequences keep insertion order.  (a) A successful
create appends the new resource's URI at the end of its collection's member
list.  (b) A successful delete of a member resource removes exactly the first
matching entry, shifting later members left without reordering survivors
(when the list is duplicate-free — an invariant of (c)/(d) — the first match is
the only one), and drops the resource from the map.  (c)/(d) Consequently the
coherence invariant — every collection's member list has exactly one entry per
live resource whose `collection` field names it — is preserved by create (for a
fresh URI declaring its collection) and by delete. -/
theorem collection_members_insertion_order
    (t : MockTree) (uri : String) (req : JsonValue) (user : Option String) :
    (∀ node t', MockTree.create t uri req user = (.ok node, t') →
      ∃ c, mapGet? t.collections uri = some c ∧
        mapGet? t'.collections uri =
          some { c with data := { c.data with members := c.data.members ++ [node.uri] } }) ∧
    (∀ t' r cu c, MockTree.delete t uri user = (.ok (), t') →
      mapGet? t.resources uri = some r →
      r.data.collection = some cu →
      mapGet? t.collections cu = some c →
      mapGet? t'.collections cu =
        some { c with data := { c.data with members := removeMember c.data.members uri } } ∧
      (∀ l1 l2, c.data.members = l1 ++ uri :: l2 → uri ∉ l1 →
        removeMember c.data.members uri = l1 ++ l2) ∧
      (keysNodup t.resources → mapGet? t'.resources uri = none)) ∧
    (∀ member t', memberCoherent t →
      MockTree.create t uri req user = (.ok (.res member), t') →
      member.data.collection = some uri →
      mapGet? t.resources member.data.uri = none →
      memberCoherent t') ∧
    (∀ t', memberCoherent t → keysNodup t.resources →
      MockTree.delete t uri user = (.ok (), t') →
      memberCoherent t') := by
  refine ⟨?_, ?_, ?_, ?_⟩
  · -- (a) create appends
    intro node t'
    unfold MockTree.create
    split
    · intro h; simp at h
    · split
      · split <;> (intro h; simp at h)
      · split
        · intro h; simp at h
        · split
          · intro h; simp at h
          · rename_i _ c hc _ post hp _ member hpost
            intro h
            injection h with h1 h2
            injection h1 with h1
            subst h1
            subst h2
            refine ⟨c, hc, ?_⟩
            exact mapGet?_insert_self _ _ _
  · -- (b) delete erases the first occurrence and drops the resource
    intro t' r cu c
    unfold MockTree.delete
    split
    · intro h; simp at h
    · split
      · split <;> (intro h; simp at h)
      · split
        · intro h; simp at h
        · split
          · intro h; simp at h
          · rename_i _ r0 hr0 _ del hdel _ u hdelok
            split
            · rename_i _ cu0 hcol0
              split
              · rename_i _ c0 hc0
                intro h hr hcoll hc'
                injection h with h1 h2
                subst h2
                rw [hr0] at hr
                injection hr with hr
                subst hr
                rw [hcol0] at hcoll
                injection hcoll with hcoll
                subst hcoll
                rw [hc0] at hc'
                injection hc' with hc'
                subst hc'
                refine ⟨?_, ?_, ?_⟩
                · exact mapGet?_insert_self _ _ _
                · intro l1 l2 hsplit hnotl1
                  rw [hsplit]
                  exact removeMember_append hnotl1
                · intro hnd
                  exact mapGet?_remove_self _ _ hnd
              · rename_i _ hc0
                intro h hr hcoll hc'
                rw [hr0] at hr
                injection hr with hr
                subst hr
                rw [hcol0] at hcoll
                injection hcoll with hcoll
                subst hcoll
                rw [hc0] at hc'
                exact Option.noConfusion hc'
            · rename_i _ hcol0
              intro h hr hcoll hc'
              rw [hr0] at hr
              injection hr with hr
              subst hr
              rw [hcol0] at hcoll
              exact Option.noConfusion hcoll
  · -- (c) create preserves coherence
    intro member t' hco
    unfold MockTree.create
    split
    · intro h; simp at h
    · split
      · split <;> (intro h; simp at h)
      · split
        · intro h; simp at h
        · split
          · intro h; simp at h
          · rename_i _ c hc _ post hp _ member0 hpost
            intro h hmcoll hfresh
            injection h with h1 h2
            injection h1 with h1
            injection h1 with h1
            subst h1
            subst h2
            exact memberCoherent_create_state t uri c member0 hco hc hmcoll hfresh
  · -- (d) delete preserves coherence
    intro t' hco hnd
    unfold MockTree.delete
    split
    · intro h; simp at h
    · split
      · split <;> (intro h; simp at h)
      · split
        · intro h; simp at h
        · split
          · intro h; simp at h
          · rename_i _ r0 hr0 _ del hdel _ u hdelok
            split
            · rename_i _ cu0 hcol0
              split
              · rename_i _ c0 hc0
                intro h
                injection h with h1 h2
                subst h2
                exact memberCoherent_delete_with_collection t uri cu0 r0 c0
                  hco hnd hr0 hcol0 hc0
              · rename_i _ hc0
                intro h
                injection h with h1 h2
                subst h2
                refine memberCoherent_resources_removed t uri r0 hco hnd hr0 ?_
                intro cu' c' hc' hcon
                rw [hcol0] at hcon
                injection hcon with hcon
                subst hcon
                rw [hc0] at hc'
                exact Option.noConfusion hc'
            · rename_i _ hcol0
              intro h
              injection h with h1 h2
              subst h2
              refine memberCoherent_resources_removed t uri r0 hco hnd hr0 ?_
              intro cu' c' hc' hcon
              rw [hcol0] at hcon
              exact Option.noConfusion hcon

theorem mapGet?_singleton {α : Type} {k u : String} {v r : α}
    (h : mapGet? [(k, v)] u = some r) : k = u ∧ r = v := by
  unfold mapGet? at h
  by_cases hk : k = u
  · rw [if_pos hk] at h
    injection h with h
    exact ⟨hk, h.symm⟩
  · rw [if_neg hk] at h
    exact Option.noConfusion h

theorem mapGet?_pair {α : Type} {k1 k2 u : String} {v1 v2 r : α}
    (h : mapGet? [(k1, v1), (k2, v2)] u = some r) :
    (k1 = u ∧ r = v1) ∨ (k1 ≠ u ∧ k2 = u ∧ r = v2) := by
  unfold mapGet? at h
  by_cases hk : k1 = u
  · rw [if_pos hk] at h
    injection h with h
    exact Or.inl ⟨hk, h.symm⟩
  · rw [if_neg hk] at h
    obtain ⟨hk2, hv⟩ := mapGet?_singleton h
    exact Or.inr ⟨hk, hk2, hv⟩

theorem memberCoherent_exTree0 : memberCoherent exTree0 := by
  intro cu c hc
  have hc' : mapGet? [("/redfish/v1/SessionService/Sessions", exSessions [])] cu =
      some c := hc
  obtain ⟨hk, hv⟩ := mapGet?_singleton hc'
  subst hk
  subst hv
  refine ⟨List.nodup_nil, fun u => ?_⟩
  constructor
  · intro hmem
    exact absurd hmem (List.not_mem_nil u)
  · rintro ⟨r, hr, hrc⟩
    have hr' : mapGet? [("/redfish/v1", exRoot)] u = some r := hr
    obtain ⟨hk2, hv2⟩ := mapGet?_singleton hr'
    subst hv2
    exact Option.noConfusion hrc

theorem memberCoherent_exTree1 : memberCoherent exTree1 := by
  intro cu c hc
  have hc' : mapGet? [("/redfish/v1/SessionService/Sessions",
      exSessions ["/redfish/v1/SessionService/Sessions/1"])] cu = some c := hc
  obtain ⟨hk, hv⟩ := mapGet?_singleton hc'
  subst hk
  subst hv
  refine ⟨by decide, fun u => ?_⟩
  constructor
  · intro hmem
    have hmem' : u ∈ ["/redfish/v1/SessionService/Sessions/1"] := hmem
    have hu := List.mem_singleton.mp hmem'
    subst hu
    exact ⟨exSessionRes, rfl, rfl⟩
  · rintro ⟨r, hr, hrc⟩
    have hr' : mapGet? [("/redfish/v1", exRoot),
        ("/redfish/v1/SessionService/Sessions/1", exSessionRes)] u = some r := hr
    rcases mapGet?_pair hr' with ⟨hk1, hv1⟩ | ⟨hne, hk2, hv2⟩
    · subst hv1
      exact Option.noConfusion hrc
    · subst hk2
      exact List.mem_singleton_self _

/-- Witness for C6: creating a session in the empty example collection appends
`.../Sessions/1`; deleting it from `exTree1` erases the member entry and the
resource; both final states satisfy the coherence invariant. -/
theorem collection_members_insertion_order_witness :
    (∃ c, mapGet? exTree0.collections "/redfish/v1/SessionService/Sessions" = some c ∧
      mapGet? (MockTree.create exTree0 "/redfish/v1/SessionService/Sessions"
          (.obj [("UserName", .str "admin")]) none).2.collections
          "/redfish/v1/SessionService/Sessions" =
        some { c with data := { c.data with members :=
          c.data.members ++ ["/redfish/v1/SessionService/Sessions/1"] } }) ∧
    memberCoherent (MockTree.create exTree0 "/redfish/v1/SessionService/Sessions"
      (.obj [("UserName", .str "admin")]) none).2 ∧
    mapGet? (MockTree.delete exTree1 "/redfish/v1/SessionService/Sessions/1"
        (some "admin")).2.collections "/redfish/v1/SessionService/Sessions" =
      some { exSessions ["/redfish/v1/SessionService/Sessions/1"] with data :=
        { (exSessions ["/redfish/v1/SessionService/Sessions/1"]).data with
          members := ([] : List String) } } ∧
    mapGet? (MockTree.delete exTree1 "/redfish/v1/SessionService/Sessions/1"
        (some "admin")).2.resources "/redfish/v1/SessionService/Sessions/1" = none ∧
    memberCoherent (MockTree.delete exTree1 "/redfish/v1/SessionService/Sessions/1"
      (some "admin")).2 := by
  have Hc := collection_members_insertion_order exTree0
    "/redfish/v1/SessionService/Sessions" (.obj [("UserName", .str "admin")]) none
  have Hd := collection_members_insertion_order exTree1
    "/redfish/v1/SessionService/Sessions/1" .null (some "admin")
  refine ⟨?_, ?_, ?_, ?_, ?_⟩
  · exact Hc.1
      (Node.res (Resource.new "/redfish/v1/SessionService/Sessions/1" "Session"
        ⟨1, 6, 0⟩ "Session" "Session 1" (some (fun _ => .ok ())) none
        (some "/redfish/v1/SessionService/Sessions")
        (.obj [("UserName", .str "admin"), ("Password", .null)])))
      (MockTree.create exTree0 "/redfish/v1/SessionService/Sessions"
        (.obj [("UserName", .str "admin")]) none).2 rfl
  · exact Hc.2.2.1
      (Resource.new "/redfish/v1/SessionService/Sessions/1" "Session"
        ⟨1, 6, 0⟩ "Session" "Session 1" (some (fun _ => .ok ())) none
        (some "/redfish/v1/SessionService/Sessions")
        (.obj [("UserName", .str "admin"), ("Password", .null)]))
      (MockTree.create exTree0 "/redfish/v1/SessionService/Sessions"
        (.obj [("UserName", .str "admin")]) none).2
      memberCoherent_exTree0 rfl rfl rfl
  · exact (Hd.2.1
      (MockTree.delete exTree1 "/redfish/v1/SessionService/Sessions/1" (some "admin")).2
      exSessionRes "/redfish/v1/SessionService/Sessions"
      (exSessions ["/redfish/v1/SessionService/Sessions/1"]) rfl rfl rfl rfl).1
  · exact (Hd.2.1
      (MockTree.delete exTree1 "/redfish/v1/SessionService/Sessions/1" (some "admin")).2
      exSessionRes "/redfish/v1/SessionService/Sessions"
      (exSessions ["/redfish/v1/SessionService/Sessions/1"]) rfl rfl rfl rfl).2.2
      (by unfold keysNodup; decide)
  · exact Hd.2.2.2
      (MockTree.delete exTree1 "/redfish/v1/SessionService/Sessions/1" (some "admin")).2
      memberCoherent_exTree1 (by unfold keysNodup; decide) rfl

end RustyRedfishery
